import Mathlib

/-!
Verification of the react-canvas-draw core against its specification.

This file shallowly embeds three pieces of the repository:

1. the per-pixel stack flood fill `floodFill` from `src/index.js`
   (lines 1098-1163), over a `Uint32Array` view of the pixel buffer;
2. the span-based flood fill class `FloodFill` from `src/FloodFill.js`
   (its color utilities live in the missing `FloodFillUtils.js` and are
   modelled from the spec);
3. the gesture interaction state machine from `interactionStateMachine.js`
   (the unnamed source part), together with a minimal model of the host
   `CanvasDraw` context.

Machine numbers are modelled as `Nat`/`Int` (JS `Uint32Array` entries are
naturals below 2 to the 32; the sentinel -1 of `getPixel` is an `Int`),
and client/document coordinates as rationals.  JS `Math.sqrt` (used only
for the two-touch pinch distance) is not exactly representable and is
passed as an explicit function parameter `sqrtQ`.

The file is organised as all definitions first, followed by all lemmas
and the claim theorems.
-/

/-! # Definitions -/

/-! ## Raster geometry

Cells are `Nat` pairs `(x, y)`; the linear index of an in-bounds cell is
`y * width + x`, exactly the indexing of the JS `Uint32Array` view. -/

/-- Color of the cell `p` in a raster of width `w` (linear index read). -/
def pix (w : Nat) (data : List Nat) (p : Nat × Nat) : Nat :=
  data.getD (p.2 * w + p.1) 0

/-- The cell lies inside the `w` by `h` raster. -/
def InB (w h : Nat) (p : Nat × Nat) : Prop :=
  p.1 < w ∧ p.2 < h

instance (w h : Nat) (p : Nat × Nat) : Decidable (InB w h p) := by
  unfold InB; infer_instance

/-- Four-directional adjacency of raster cells. -/
def Adj (p q : Nat × Nat) : Prop :=
  (p.1 = q.1 ∧ (p.2 + 1 = q.2 ∨ q.2 + 1 = p.2)) ∨
    (p.2 = q.2 ∧ (p.1 + 1 = q.1 ∨ q.1 + 1 = p.1))

instance (p q : Nat × Nat) : Decidable (Adj p q) := by
  unfold Adj; infer_instance

/-- The 4-connected same-color region of the seed: cells of color `S`
reachable from the seed through in-bounds cells of color `S`. -/
inductive Reach (w h : Nat) (data0 : List Nat) (S : Nat) (seed : Nat × Nat) :
    Nat × Nat → Prop
  | base : InB w h seed → pix w data0 seed = S → Reach w h data0 S seed seed
  | step {p q : Nat × Nat} : Reach w h data0 S seed p → Adj p q →
      InB w h q → pix w data0 q = S → Reach w h data0 S seed q

/-! ## The per-pixel stack flood fill of `src/index.js`

JS source (`floodFill`, lines 1098-1163):

* `getPixel(pixelData, x, y)` returns -1 ("impossible color") when the
  coordinate is outside the buffer bounds and `data[y * width + x]`
  otherwise;
* the driver compares `targetColor !== fillColor` and, if they differ,
  runs a stack (`pixelsToCheck`) of coordinates: popping `(x, y)`, writing
  `fillColor` at linear index `y * width + x` whenever the current color
  equals the target color, and pushing the four neighbours.

A `Uint32Array` silently drops writes at indices outside `[0, length)`,
which `writeData` reproduces.  The loop is embedded as a step function
plus an explicit fuel counter `ffLoop`. -/

/-- Pixel read of the inner `getPixel` helper of `floodFill` in
`src/index.js`: -1 outside bounds, otherwise the entry at linear index
`y * width + x`.  Buffer entries are `Uint32` values, embedded as `Nat`
inside `Int`. -/
def getPixel (w h : Nat) (data : List Nat) (x y : Int) : Int :=
  if x < 0 ∨ y < 0 ∨ (w : Int) ≤ x ∨ (h : Int) ≤ y then -1
  else ((data.getD (y.toNat * w + x.toNat) 0 : Nat) : Int)

/-- Write to a `Uint32Array` at a possibly out-of-range linear index:
JS silently ignores writes outside `[0, length)`. -/
def writeData (data : List Nat) (idx : Int) (v : Nat) : List Nat :=
  if 0 ≤ idx ∧ idx < (data.length : Int) then data.set idx.toNat v else data

/-- State of the `floodFill` loop of `src/index.js`: the pixel buffer and
the `pixelsToCheck` stack.  JS pushes the flat pairs
`(x+1,y) (x-1,y) (x,y+1) (x,y-1)` and pops from the end, so the list head
is the top of the stack. -/
structure FFState where
  data : List Nat
  stack : List (Int × Int)
deriving Repr, DecidableEq

/-- One iteration of the `while (pixelsToCheck.length > 0)` loop of
`floodFill` in `src/index.js`: pop a coordinate; if its current color
equals the target color, write the fill color at the linear index
`y * width + x` and push the four neighbours (in the pop order of the JS
stack); otherwise just drop it. -/
def ffStep (w h : Nat) (target : Int) (fill : Nat) (s : FFState) : FFState :=
  match s.stack with
  | [] => s
  | (x, y) :: rest =>
    if getPixel w h s.data x y = target then
      { data := writeData s.data (y * (w : Int) + x) fill,
        stack := (x, y - 1) :: (x, y + 1) :: (x - 1, y) :: (x + 1, y) :: rest }
    else
      { data := s.data, stack := rest }

/-- The `floodFill` loop run for at most `n` iterations (the JS loop has
no fuel; a run is faithful whenever the final stack is empty, and claims
about nontermination are stated as the stack being nonempty for every
fuel). -/
def ffLoop (w h : Nat) (target : Int) (fill : Nat) : Nat → FFState → FFState
  | 0, s => s
  | n + 1, s =>
    match s.stack with
    | [] => s
    | _ :: _ => ffLoop w h target fill n (ffStep w h target fill s)

/-- The driver of `floodFill` in `src/index.js`: read the target color at
the seed, and if it differs from the fill color run the stack loop seeded
with the seed coordinate.  `fuel` bounds the number of loop iterations. -/
def floodFill (fuel : Nat) (w h : Nat) (data : List Nat) (x y : Int)
    (fill : Nat) : List Nat :=
  let target := getPixel w h data x y
  if target ≠ (fill : Int) then
    (ffLoop w h target fill fuel { data := data, stack := [(x, y)] }).data
  else data

/-! ## Invariants for the stack flood fill correctness proof -/

/-- Paths from a stack entry through cells currently colored `S`: the
frontier reachability used in the completeness invariant.  The origin `q`
is an `Int` stack coordinate; a path exists only when `q` itself denotes
an in-bounds cell currently colored `S`. -/
inductive PathT (w h S : Nat) (data : List Nat) : Int × Int → Nat × Nat → Prop
  | base (p : Nat × Nat) : InB w h p → pix w data p = S →
      PathT w h S data ((p.1 : Int), (p.2 : Int)) p
  | step {q : Int × Int} {p0 p : Nat × Nat} : PathT w h S data q p0 →
      Adj p0 p → InB w h p → pix w data p = S → PathT w h S data q p

/-- A cell is reachable from the current stack through currently
`S`-colored cells. -/
def StackReach (w h S : Nat) (s : FFState) (p : Nat × Nat) : Prop :=
  ∃ q ∈ s.stack, PathT w h S s.data q p

/-- Soundness invariant of the loop: the buffer length is stable and any
cell that differs from the original buffer was an `S`-colored cell, now
holding the fill color. -/
def SInv (w h : Nat) (data0 : List Nat) (S fill : Nat) (s : FFState) : Prop :=
  s.data.length = w * h ∧
    ∀ i, i < w * h → s.data.getD i 0 ≠ data0.getD i 0 →
      data0.getD i 0 = S ∧ s.data.getD i 0 = fill

/-- Completeness invariant of the loop: every cell of the seed region is
already painted or still reachable from the stack. -/
def Cover (w h : Nat) (data0 : List Nat) (S fill : Nat) (seed : Nat × Nat)
    (s : FFState) : Prop :=
  ∀ p, Reach w h data0 S seed p → pix w s.data p = fill ∨ StackReach w h S s p

/-- Termination measure of the loop: five times the number of cells still
colored `S` plus the stack size. -/
def ffMeasure (S : Nat) (s : FFState) : Nat :=
  5 * s.data.countP (fun c => c == S) + s.stack.length

/-! ## The span-based flood fill of `src/FloodFill.js`

The `FloodFill` class performs a scanline fill over an `ImageData`-like
object.  Its color utilities (`isSameColor`, `getColorAtPixel`,
`setColorAtPixel`, `colorToRGBA`) are imported from `FloodFillUtils.js`,
which is not part of the sources; those are modelled from the spec (see
the individual doc comments).  CSS color parsing (`colorToRGBA`) is taken
as given: `fill` receives the new color already as an RGBA record.

The JS `while` loops are embedded as follows: the left extension of
`fillLineAt` recurses structurally on the column, the right extension on
`width - column`, the per-line loop of `fillQueue` on an explicit fuel
(`stop + 2 - start`, which the column progress of the loop never
exhausts), and the outer queue loop on a caller-supplied fuel. -/

/-- A packed RGBA color (each channel a byte in JS). -/
structure ColorRGBA where
  r : Nat
  g : Nat
  b : Nat
  a : Nat
deriving Repr, DecidableEq

/-- The `imageData` object borrowed by `FloodFill`: a width by height
raster of RGBA values, indexed linearly row by row. -/
structure Image where
  width : Nat
  height : Nat
  data : List ColorRGBA
deriving Repr, DecidableEq

/-- Modelled from the spec: the color match predicate of the missing
`FloodFillUtils.js` (`isSameColor`).  The spec: two colors are equal if
their per-channel difference is within `tolerance`; `tolerance = 0`
requires exact equality. -/
def isSameColor (c1 c2 : ColorRGBA) (tol : Nat) : Bool :=
  decide (((c1.r : Int) - (c2.r : Int)).natAbs ≤ tol
    ∧ ((c1.g : Int) - (c2.g : Int)).natAbs ≤ tol
    ∧ ((c1.b : Int) - (c2.b : Int)).natAbs ≤ tol
    ∧ ((c1.a : Int) - (c2.a : Int)).natAbs ≤ tol)

/-- Modelled from the spec: the pixel read of the missing
`FloodFillUtils.js` (`getColorAtPixel`), a packed read of the
PixelBuffer at linear index `y * width + x`.  The algorithm only reads
in-bounds coordinates (the neighbour and enqueue guards), so the default
value is irrelevant to the claims. -/
def getColorAtPixel (img : Image) (x y : Nat) : ColorRGBA :=
  img.data.getD (y * img.width + x) ⟨0, 0, 0, 0⟩

/-- Modelled from the spec: the pixel write of the missing
`FloodFillUtils.js` (`setColorAtPixel`). -/
def setColorAtPixel (img : Image) (c : ColorRGBA) (x y : Nat) : Image :=
  { img with data := img.data.set (y * img.width + x) c }

namespace FloodFill

/-- `isValidTarget` of `FloodFill.js`: a `null` pixel yields `undefined`
(falsy); otherwise the pixel color is compared with the replaced color
under the tolerance. -/
def isValidTarget (replaced : ColorRGBA) (tol : Nat) (img : Image)
    (px : Option (Nat × Nat)) : Bool :=
  match px with
  | none => false
  | some p => isSameColor replaced (getColorAtPixel img p.1 p.2) tol

/-- `getPixelNeighbour` of `FloodFill.js` for direction `left`: `x - 1`
when that stays inside `[0, width)`, otherwise `null`. -/
def getPixelNeighbourLeft (img : Image) (x y : Nat) : Option (Nat × Nat) :=
  if 1 ≤ x ∧ x - 1 < img.width then some (x - 1, y) else none

/-- `getPixelNeighbour` of `FloodFill.js` for direction `right`. -/
def getPixelNeighbourRight (img : Image) (x y : Nat) : Option (Nat × Nat) :=
  if x + 1 < img.width then some (x + 1, y) else none

/-- `setPixelColor` of `FloodFill.js` (the modified-pixel bookkeeping is
rendering-side and not modelled). -/
def setPixelColor (c : ColorRGBA) (p : Nat × Nat) (img : Image) : Image :=
  setColorAtPixel img c p.1 p.2

/-- The left extension `while` loop of `fillLineAt`: while the left
neighbour is a valid target, paint it and move left; returns the painted
image and the final `minX`.  Structural recursion on the column (the left
neighbour of `minX + 1` is `minX`; column 0 has no left neighbour). -/
def leftLoop (replaced newC : ColorRGBA) (tol : Nat) :
    Image → Nat → Nat → Image × Nat
  | img, 0, _ => (img, 0)
  | img, minX + 1, y =>
    if isValidTarget replaced tol img (getPixelNeighbourLeft img (minX + 1) y)
        = true then
      leftLoop replaced newC tol (setPixelColor newC (minX, y) img) minX y
    else (img, minX + 1)

/-- The right extension `while` loop of `fillLineAt`, recursing on
`width - maxX` (painting preserves the width). -/
def rightLoop (replaced newC : ColorRGBA) (tol : Nat) (img : Image)
    (maxX y : Nat) : Image × Nat :=
  if isValidTarget replaced tol img (getPixelNeighbourRight img maxX y)
      = true then
    if hlt : maxX + 1 < img.width then
      rightLoop replaced newC tol (setPixelColor newC (maxX + 1, y) img)
        (maxX + 1) y
    else (img, maxX)
  else (img, maxX)
termination_by img.width - maxX
decreasing_by
  simp only [setPixelColor, setColorAtPixel]
  omega

/-- `fillLineAt` of `FloodFill.js`: reject an invalid seed (`[-1, -1]`,
modelled as `none`); otherwise paint the seed cell and extend the span
left and right, returning the painted image and the span `[minX, maxX]`. -/
def fillLineAt (replaced newC : ColorRGBA) (tol : Nat) (img : Image)
    (x y : Nat) : Image × Option (Nat × Nat) :=
  if isValidTarget replaced tol img (some (x, y)) = true then
    let img1 := setPixelColor newC (x, y) img
    let lres := leftLoop replaced newC tol img1 x y
    let rres := rightLoop replaced newC tol lres.1 x y
    (rres.1, some (lres.2, rres.2))
  else (img, none)

/-- A queue entry `[startX, endX, y, parentY]` of `FloodFill.js`
(`parentY` is `-1` for the seed line). -/
structure Line where
  start : Nat
  stop : Nat
  y : Nat
  parentY : Int
deriving Repr, DecidableEq

/-- The inner `while (currX !== -1 && currX <= end)` loop of `fillQueue`:
fill a span at each unpainted matching column of the popped line, enqueue
the neighbouring rows for each discovered span (skipping the parent row
when the span is contained in the parent span, and never enqueuing rows
outside `[0, height)`), and jump past each span.  The queue is a stack
with the head as its top (JS pushes and pops at the array end).  `fuel`
bounds the iterations; the caller passes `stop + 2 - start`, which the
strict column progress of the loop never exhausts. -/
def lineLoop (hgt : Nat) (replaced newC : ColorRGBA) (tol : Nat)
    (startX stop y : Nat) (parentY : Int) :
    Nat → Image → List Line → Nat → Image × List Line
  | 0, img, queue, _ => (img, queue)
  | fuel + 1, img, queue, currX =>
    if currX ≤ stop then
      match fillLineAt replaced newC tol img currX y with
      | (img2, none) =>
        lineLoop hgt replaced newC tol startX stop y parentY fuel img2 queue
          (currX + 1)
      | (img2, some (lineStart, lineEnd)) =>
        let queue2 :=
          if startX ≤ lineStart ∧ lineEnd ≤ stop ∧ parentY ≠ -1 then
            let qa := if parentY < (y : Int) ∧ y + 1 < hgt then
                Line.mk lineStart lineEnd (y + 1) (y : Int) :: queue
              else queue
            if parentY > (y : Int) ∧ 0 < y then
              Line.mk lineStart lineEnd (y - 1) (y : Int) :: qa
            else qa
          else
            let qa := if 0 < y then
                Line.mk lineStart lineEnd (y - 1) (y : Int) :: queue
              else queue
            if y + 1 < hgt then
              Line.mk lineStart lineEnd (y + 1) (y : Int) :: qa
            else qa
        lineLoop hgt replaced newC tol startX stop y parentY fuel img2 queue2
          (lineEnd + 1)
    else (img, queue)

/-- The outer `while (line)` loop of `fillQueue`: pop the most recent
line and process it, until the queue empties or the fuel runs out. -/
def fillQueue (hgt : Nat) (replaced newC : ColorRGBA) (tol : Nat) :
    Nat → Image → List Line → Image
  | 0, img, _ => img
  | fuel + 1, img, queue =>
    match queue with
    | [] => img
    | l :: rest =>
      let res := lineLoop hgt replaced newC tol l.start l.stop l.y l.parentY
        (l.stop + 2 - l.start) img rest l.start
      fillQueue hgt replaced newC tol fuel res.1 res.2

/-- `fill` of `FloodFill.js`: record the replaced color at the seed and
the new color; return unchanged when they already match within the
tolerance, otherwise seed the queue with `[x, x, y, -1]` and run it. -/
def fill (fuel : Nat) (newC : ColorRGBA) (x y : Nat) (tol : Nat)
    (img : Image) : Image :=
  let replaced := getColorAtPixel img x y
  if isSameColor replaced newC tol = true then img
  else fillQueue img.height replaced newC tol fuel img [Line.mk x x y (-1)]

end FloodFill

/-! ## The gesture interaction state machine

Embedding of `interactionStateMachine.js` (the unnamed source part) plus
the minimal slice of the host `CanvasDraw` component of `src/index.js`
that the handlers read and write.  Client and document coordinates are
rationals.  The external pointer-smoothing filter (`LazyBrush`) is an
external collaborator: its state is its brush position, and its `update`
behaviour is a function field `lazyUpdate` of the host context; its
`isEnabled` answer is the field `lazyEnabled`.  The viewport transform
(`coordinateSystem.js` is not among the sources) is modelled from the
spec: a `ViewState` of pan offset and uniform scale, an inverse affine
`clientPointToViewPoint`, a clamping `setView`, and an anchor-invariant
`scaleAtClientPoint`.  `Math.sqrt` (used only for the two-touch pinch
distance) is passed to the handlers as a function parameter `sq`.  Pure
rendering calls (`drawPoints`, `drawRect`, `drawCircle`, grid and
interface drawing) have no machine-visible effect and are not modelled;
the flood-fill trigger is recorded as an invocation in the `fills` list
of the host context. -/

/-- A client-space point, as carried by pointer and touch events. -/
structure CPoint where
  clientX : Rat
  clientY : Rat
deriving Repr, DecidableEq

/-- A document-space (view) point `{x, y}`. -/
structure VPoint where
  x : Rat
  y : Rat
deriving Repr, DecidableEq

/-- The event fields the machine reads.  An absent `touches` or
`changedTouches` collection is modelled as the empty list (the code only
ever tests emptiness and length).  `now` is the value `new
Date().valueOf()` would produce while the event is processed. -/
structure Event where
  clientX : Rat
  clientY : Rat
  touches : List CPoint
  changedTouches : List CPoint
  ctrlKey : Bool
  deltaY : Rat
  now : Int
deriving Repr, DecidableEq

/-- The drawing tools distinguished by `DrawingState.handleDrawMove`
(`props.tool` strings; any other string behaves like `NoTool`). -/
inductive Tool
  | Pencil
  | Eraser
  | FloodFillTool
  | Rectangle
  | Circle
  | NoTool
deriving Repr, DecidableEq

/-- A committed stroke as saved by `saveLine` of `src/index.js`. -/
structure Stroke where
  points : List VPoint
  brushColor : Nat
  brushRadius : Rat
deriving Repr, DecidableEq

/-- Modelled from the spec: the `ViewState` of the missing
`coordinateSystem.js` (pan offset and uniform zoom factor). -/
structure View where
  x : Rat
  y : Rat
  scale : Rat
deriving Repr, DecidableEq

/-- The `CanvasDraw` props the machine reads. -/
structure Props where
  disabled : Bool
  enablePanAndZoom : Bool
  mouseZoomFactor : Rat
  tool : Tool
  clampLinesToDocument : Bool
  canvasWidth : Rat
  canvasHeight : Rat
  brushColor : Nat
  brushRadius : Rat
  zoomMin : Rat
  zoomMax : Rat
deriving Repr, DecidableEq

/-- The host context (`canvasDraw`) threaded through every handler: the
props, the view state, the external lazy filter (brush position, enabled
flag and update behaviour), the `lastX`/`lastY` scratch fields, the
in-progress stroke points, the committed lines, the recorded flood-fill
invocations, and the client size of the drawing canvas. -/
structure Ctx where
  props : Props
  view : View
  lazyBrush : VPoint
  lazyEnabled : Bool
  lazyUpdate : VPoint → VPoint → Bool → VPoint
  lastX : Rat
  lastY : Rat
  points : List VPoint
  lines : List Stroke
  fills : List (Int × Int × Nat)
  canvasClientWidth : Rat
  canvasClientHeight : Rat

/-- Payload of `WaitForPinchState`: the first recorded client point, the
construction timestamp, and the buffered deferred points. -/
structure WFP where
  startClientPoint : Option CPoint
  startTimestamp : Int
  deferredPoints : List CPoint
deriving Repr, DecidableEq

/-- Payload of `PanState`: drag origin and the pan at drag start. -/
structure PanPayload where
  dragStart : CPoint
  panStart : VPoint
deriving Repr, DecidableEq

/-- The two-touch metrics computed by
`ScaleOrPanState.getTouchMetrics`. -/
structure TouchMetrics where
  t1 : CPoint
  t2 : CPoint
  distance : Rat
  centroid : CPoint
deriving Repr, DecidableEq

/-- Payload of `ScaleOrPanState` (also referenced by `TouchPanState` and
`TouchScaleState`): baseline metrics, pan and scale.  The write-only
`recentMetrics` field is never read and is not modelled. -/
structure SPPayload where
  start : TouchMetrics
  panStart : VPoint
  scaleStart : Rat
deriving Repr, DecidableEq

/-- Payload of `DrawingState`. -/
structure DrawPayload where
  isDrawing : Bool
deriving Repr, DecidableEq

/-- The tagged gesture states of the machine. -/
inductive GestureState
  | default
  | disabled
  | pan (p : PanPayload)
  | waitForPinch (p : WFP)
  | scaleOrPan (p : SPPayload)
  | touchPan (p : SPPayload)
  | touchScale (p : SPPayload)
  | drawing (p : DrawPayload)
deriving Repr, DecidableEq

/-- `clientPointFromEvent` of `interactionStateMachine.js`: the first
changed touch when present, the cursor position otherwise. -/
def clientPointFromEvent (e : Event) : CPoint :=
  match e.changedTouches with
  | [] => { clientX := e.clientX, clientY := e.clientY }
  | t :: _ => t

/-- Modelled from the spec: `clientPointToViewPoint` of the missing
`coordinateSystem.js`, the inverse of the pan-and-scale affine
transform. -/
def clientPointToViewPoint (v : View) (p : CPoint) : VPoint :=
  { x := (p.clientX - v.x) / v.scale, y := (p.clientY - v.y) / v.scale }

/-- `viewPointFromEvent` of `interactionStateMachine.js`. -/
def viewPointFromEvent (cd : Ctx) (e : Event) : VPoint :=
  clientPointToViewPoint cd.view (clientPointFromEvent e)

/-- Clamp a rational into an interval (spec: scale stays within the
configured extents). -/
def clampQ (q lo hi : Rat) : Rat :=
  max lo (min q hi)

/-- Modelled from the spec: `scaleAtClientPoint` of the missing
`coordinateSystem.js`.  The new scale is the clamped sum of the current
scale and the delta; the pan is recomputed so that the document point
under the client anchor stays under it (anchor invariance). -/
def scaleAtClientPoint (v : View) (zoomMin zoomMax dScale : Rat)
    (anchor : CPoint) : View :=
  let newScale := clampQ (v.scale + dScale) zoomMin zoomMax
  let docPt := clientPointToViewPoint v anchor
  { x := anchor.clientX - docPt.x * newScale,
    y := anchor.clientY - docPt.y * newScale,
    scale := newScale }

/-- Modelled from the spec: a pan-only `setView` (the pan states pass
`{x, y}` objects without a scale; the spec sets the pan unconditionally
and only the scale is clamped). -/
def setViewXY (v : View) (nx ny : Rat) : View :=
  { v with x := nx, y := ny }

/-- `saveLine` of `src/index.js`: discard the in-progress stroke when it
has fewer than 2 points; otherwise append the stroke to the committed
lines and reset the point list. -/
def saveLine (cd : Ctx) : Ctx :=
  if cd.points.length < 2 then cd
  else
    { cd with
      lines := cd.lines ++
        [{ points := cd.points, brushColor := cd.props.brushColor,
           brushRadius := cd.props.brushRadius }],
      points := [] }

/-- `clampPointToDocument` of `src/index.js`. -/
def clampPointToDocument (cd : Ctx) (p : VPoint) : VPoint :=
  if cd.props.clampLinesToDocument then
    { x := max (min p.x cd.props.canvasWidth) 0,
      y := max (min p.y cd.props.canvasHeight) 0 }
  else p

/-- JS `Math.round`: round half toward positive infinity. -/
def jsRound (q : Rat) : Int :=
  Int.floor (q + 1 / 2)

/-- `SyntheticEvent` of `interactionStateMachine.js`: carries the client
point and a single synthetic touch; it has no `changedTouches`. -/
def SyntheticEvent (p : CPoint) : Event :=
  { clientX := p.clientX, clientY := p.clientY, touches := [p],
    changedTouches := [], ctrlKey := false, deltaY := 0, now := 0 }

/-- `getTouchMetrics` of `ScaleOrPanState`: both touch points, their
Euclidean distance (`Math.sqrt` supplied as `sq`) and their centroid. -/
def getTouchMetrics (sq : Rat → Rat) (e : Event) : TouchMetrics :=
  let t1 := e.touches.getD 0 { clientX := 0, clientY := 0 }
  let t2 := e.touches.getD 1 { clientX := 0, clientY := 0 }
  let dx := t2.clientX - t1.clientX
  let dy := t2.clientY - t1.clientY
  { t1 := t1, t2 := t2, distance := sq (dx * dx + dy * dy),
    centroid := { clientX := (t1.clientX + t2.clientX) / 2,
                  clientY := (t1.clientY + t2.clientY) / 2 } }

/-- Manhattan distance between two client points, the slop metric of the
machine. -/
def manhattan (a b : CPoint) : Rat :=
  |a.clientX - b.clientX| + |a.clientY - b.clientY|

/-- `SUPPRESS_SCROLL` of `interactionStateMachine.js`.  It is an arrow
function declared at module scope, so the `this` it returns is the
module-scope `this` (`undefined` in an ES module; `.bind(this)` in the
class field initialisers has no effect on an arrow function, which has
no own `this`).  Its return value is therefore not a state object at
all, modelled as `none`.  The `preventDefault` side effect is
browser-facing and not modelled. -/
def SUPPRESS_SCROLL (_e : Event) (cd : Ctx) : Option GestureState × Ctx :=
  (none, cd)

namespace DrawingState

/-- `DrawingState.handleDrawMove` (`interactionStateMachine.js` lines
381-515).  Sets `lastX`/`lastY` to the converted view point, triggers
the flood fill at the rounded coordinates when the flood-fill tool is
active (recorded in `fills`; the rectangle and circle tools only redraw
the canvas), returns without stroke accumulation unless the tool is
Pencil or Eraser, applies the edge-entry adjustment when
`shouldStartAtEdge` is set (note the code compares `canvasDraw.lastX`,
which it itself just set to `x`, with `x`), feeds the lazy filter, and
appends the (clamped) brush position to the in-progress stroke - twice
when this is the first accumulating move of the gesture or the filter is
disabled.  Always returns `this`. -/
def handleDrawMove (e : Event) (cd : Ctx) (shouldStartAtEdge : Bool)
    (d : DrawPayload) : DrawPayload × Ctx :=
  let realW := cd.canvasClientWidth
  let realH := cd.canvasClientHeight
  let vp := viewPointFromEvent cd e
  let cd1 := { cd with lastX := vp.x, lastY := vp.y }
  let cd2 :=
    if cd1.props.tool = Tool.FloodFillTool then
      { cd1 with
        fills := cd1.fills ++ [(jsRound vp.x, jsRound vp.y,
          cd1.props.brushColor)] }
    else cd1
  if cd2.props.tool ≠ Tool.Pencil ∧ cd2.props.tool ≠ Tool.Eraser then
    (d, cd2)
  else
    let xy :=
      if shouldStartAtEdge then
        let x2 :=
          if cd2.lastX < 0 ∧ vp.x < 80 then 0
          else if realW ≤ cd2.lastX ∧ realW - 80 ≤ vp.x then vp.x + 500
          else vp.x
        let y2 :=
          if cd2.lastY < 0 ∧ vp.y < 80 then 0
          else if realH ≤ cd2.lastY ∧ realH - 80 ≤ vp.y then vp.y + 500
          else vp.y
        (x2, y2)
      else (vp.x, vp.y)
    let cd3 :=
      if shouldStartAtEdge then cd2
      else { cd2 with lastX := vp.x, lastY := vp.y }
    let cd4 := { cd3 with
      lazyBrush := cd3.lazyUpdate cd3.lazyBrush { x := xy.1, y := xy.2 }
        false }
    let isDisabled := ¬cd4.lazyEnabled
    let step :=
      if ¬d.isDrawing ∨ isDisabled then
        ({ isDrawing := true : DrawPayload },
          { cd4 with
            points := cd4.points ++ [clampPointToDocument cd4 cd4.lazyBrush] })
      else (d, cd4)
    let cd5 := { step.2 with
      points := step.2.points ++ [clampPointToDocument step.2 step.2.lazyBrush] }
    (step.1, cd5)

/-- `DrawingState.handleDrawStart`: on a touch event the lazy filter is
re-pinned to the touch position (`both: true`), then the event is
handled as a move. -/
def handleDrawStart (e : Event) (cd : Ctx) (shouldStartAtEdge : Bool)
    (d : DrawPayload) : DrawPayload × Ctx :=
  let cd1 :=
    if e.touches.length ≠ 0 then
      let vp := viewPointFromEvent cd e
      { cd with lazyBrush := cd.lazyUpdate cd.lazyBrush vp true }
    else cd
  handleDrawMove e cd1 shouldStartAtEdge d

/-- `DrawingState.handleDrawEnd`: one final move (without the edge
flag), then `saveLine`, then back to the default state. -/
def handleDrawEnd (e : Event) (cd : Ctx) (d : DrawPayload) :
    GestureState × Ctx :=
  let res := handleDrawMove e cd false d
  (GestureState.default, saveLine res.2)

end DrawingState

/-- The replay loop of `WaitForPinchState.issueDeferredPoints`: the
first buffered point goes through `DrawingState.handleDrawStart`, each
subsequent one through `DrawingState.handleDrawMove`, each wrapped in a
`SyntheticEvent`, in buffer order.  (In the source the handler is looked
up on the current `nextState`; the drawing handlers always return
`this`, so the dispatch stays on the drawing state, whose payload is
threaded here directly.) -/
def issueGo : Bool → DrawPayload → Ctx → List CPoint → DrawPayload × Ctx
  | _, d, cd, [] => (d, cd)
  | first, d, cd, pt :: rest =>
    let res :=
      if first then DrawingState.handleDrawStart (SyntheticEvent pt) cd false d
      else DrawingState.handleDrawMove (SyntheticEvent pt) cd false d
    issueGo false res.1 res.2 rest

/-- `WaitForPinchState.issueDeferredPoints`: replay the buffer into a
fresh drawing state. -/
def issueDeferredPoints (pts : List CPoint) (cd : Ctx) :
    GestureState × Ctx :=
  let r := issueGo true { isDrawing := false } cd pts
  (GestureState.drawing r.1, r.2)

namespace PanState

/-- `PanState.handleDrawStart`: capture the drag origin and the current
pan. -/
def handleDrawStart (e : Event) (cd : Ctx) : GestureState × Ctx :=
  (GestureState.pan
    { dragStart := clientPointFromEvent e,
      panStart := { x := cd.view.x, y := cd.view.y } }, cd)

/-- `PanState.handleDrawMove`: pan by the client-space delta from the
drag origin. -/
def handleDrawMove (p : PanPayload) (e : Event) (cd : Ctx) :
    GestureState × Ctx :=
  let c := clientPointFromEvent e
  let dx := c.clientX - p.dragStart.clientX
  let dy := c.clientY - p.dragStart.clientY
  (GestureState.pan p,
    { cd with view := setViewXY cd.view (p.panStart.x + dx) (p.panStart.y + dy) })

end PanState

namespace TouchScaleState

/-- `TouchScaleState.handleDrawMove`: below two touches fall back to the
default state; otherwise set the scale to
`scaleStart * (currentDistance / baselineDistance)`, anchored at the
touch centroid. -/
def handleDrawMove (sq : Rat → Rat) (p : SPPayload) (e : Event) (cd : Ctx) :
    GestureState × Ctx :=
  if e.touches.length < 2 then (GestureState.default, cd)
  else
    let m := getTouchMetrics sq e
    let targetScale := p.scaleStart * (m.distance / p.start.distance)
    let dScale := targetScale - cd.view.scale
    (GestureState.touchScale p,
      { cd with view := (scaleAtClientPoint cd.view cd.props.zoomMin
          cd.props.zoomMax dScale m.centroid) })

end TouchScaleState

namespace TouchPanState

/-- `TouchPanState.handleDrawMove`: below two touches fall back to the
default state; otherwise pan by the centroid delta from the baseline. -/
def handleDrawMove (sq : Rat → Rat) (p : SPPayload) (e : Event) (cd : Ctx) :
    GestureState × Ctx :=
  if e.touches.length < 2 then (GestureState.default, cd)
  else
    let m := getTouchMetrics sq e
    let dx := m.centroid.clientX - p.start.centroid.clientX
    let dy := m.centroid.clientY - p.start.centroid.clientY
    (GestureState.touchPan p,
      { cd with view := setViewXY cd.view (p.panStart.x + dx) (p.panStart.y + dy) })

end TouchPanState

namespace ScaleOrPanState

/-- `ScaleOrPanState.handleDrawStart`: below two touches fall back to
the default state; otherwise record the touch metrics and the current
pan and scale as the baseline. -/
def handleDrawStart (sq : Rat → Rat) (e : Event) (cd : Ctx) :
    GestureState × Ctx :=
  if e.touches.length < 2 then (GestureState.default, cd)
  else
    (GestureState.scaleOrPan
      { start := getTouchMetrics sq e,
        panStart := { x := cd.view.x, y := cd.view.y },
        scaleStart := cd.view.scale }, cd)

/-- `ScaleOrPanState.handleDrawMove`: below two touches fall back to the
default state; if the inter-touch distance changed from the baseline by
at least the slop threshold, hand over to `TouchScaleState` (checked
first); else if the centroid moved by at least the slop threshold
(Manhattan), hand over to `TouchPanState`; else stay. -/
def handleDrawMove (sq : Rat → Rat) (p : SPPayload) (e : Event) (cd : Ctx) :
    GestureState × Ctx :=
  if e.touches.length < 2 then (GestureState.default, cd)
  else
    let m := getTouchMetrics sq e
    if 10 ≤ |m.distance - p.start.distance| then
      TouchScaleState.handleDrawMove sq p e cd
    else
      let dx := m.centroid.clientX - p.start.centroid.clientX
      let dy := m.centroid.clientY - p.start.centroid.clientY
      if 10 ≤ |dx| + |dy| then TouchPanState.handleDrawMove sq p e cd
      else (GestureState.scaleOrPan p, cd)

end ScaleOrPanState

namespace WaitForPinchState

/-- `WaitForPinchState.handleDrawMove`: two touches hand over to
`ScaleOrPanState.handleDrawStart`; otherwise the client point is
buffered, and within the 250 ms pinch timeout and below the Manhattan
slop of 10 from the first recorded point the machine waits, else it
gives up and replays the buffer into a drawing state. -/
def handleDrawMove (sq : Rat → Rat) (p : WFP) (e : Event) (cd : Ctx) :
    GestureState × Ctx :=
  if 2 ≤ e.touches.length then ScaleOrPanState.handleDrawStart sq e cd
  else
    let clientPt := clientPointFromEvent e
    let p1 := { p with deferredPoints := p.deferredPoints ++ [clientPt] }
    if e.now - p1.startTimestamp < 250 then
      let p2 :=
        if p1.startClientPoint = none then
          { p1 with startClientPoint := some clientPt }
        else p1
      let d := manhattan clientPt (p2.startClientPoint.getD clientPt)
      if d < 10 then (GestureState.waitForPinch p2, cd)
      else issueDeferredPoints p2.deferredPoints cd
    else issueDeferredPoints p1.deferredPoints cd

/-- `WaitForPinchState.handleDrawStart`: without touches or with
pan-and-zoom disabled go straight to drawing; with two touches go to
`ScaleOrPanState`; otherwise treat the event as a move. -/
def handleDrawStart (sq : Rat → Rat) (p : WFP) (e : Event) (cd : Ctx)
    (shouldStartAtEdge : Bool) : GestureState × Ctx :=
  if e.touches.length = 0 ∨ ¬cd.props.enablePanAndZoom then
    let r := DrawingState.handleDrawStart e cd shouldStartAtEdge
      { isDrawing := false }
    (GestureState.drawing r.1, r.2)
  else if cd.props.enablePanAndZoom ∧ 2 ≤ e.touches.length then
    ScaleOrPanState.handleDrawStart sq e cd
  else handleDrawMove sq p e cd

/-- `WaitForPinchState.handleDrawEnd`: replay the buffer into a drawing
state and end that gesture immediately. -/
def handleDrawEnd (p : WFP) (e : Event) (cd : Ctx) : GestureState × Ctx :=
  let r := issueGo true { isDrawing := false } cd p.deferredPoints
  DrawingState.handleDrawEnd e r.2 r.1

end WaitForPinchState

namespace DefaultState

/-- `DefaultState.handleMouseWheel`: to the disabled state when
disabled; zoom at the cursor anchor on ctrl+wheel with pan-and-zoom
enabled; otherwise stay. -/
def handleMouseWheel (e : Event) (cd : Ctx) : Option GestureState × Ctx :=
  if cd.props.disabled then (some GestureState.disabled, cd)
  else if cd.props.enablePanAndZoom ∧ e.ctrlKey then
    (some GestureState.default,
      { cd with view := (scaleAtClientPoint cd.view cd.props.zoomMin
          cd.props.zoomMax (cd.props.mouseZoomFactor * e.deltaY)
          (clientPointFromEvent e)) })
  else (some GestureState.default, cd)

/-- `DefaultState.handleDrawStart`: to the disabled state when disabled;
to panning on a modifier start with pan-and-zoom enabled; otherwise into
the pinch-wait state (constructed with the current time and an empty
buffer). -/
def handleDrawStart (sq : Rat → Rat) (e : Event) (cd : Ctx)
    (shouldStartAtEdge : Bool) : GestureState × Ctx :=
  if cd.props.disabled then (GestureState.disabled, cd)
  else if e.ctrlKey ∧ cd.props.enablePanAndZoom then
    PanState.handleDrawStart e cd
  else
    WaitForPinchState.handleDrawStart sq
      { startClientPoint := none, startTimestamp := e.now,
        deferredPoints := [] } e cd shouldStartAtEdge

/-- `DefaultState.handleDrawMove`: update the lazy filter target. -/
def handleDrawMove (e : Event) (cd : Ctx) : GestureState × Ctx :=
  if cd.props.disabled then (GestureState.disabled, cd)
  else
    let vp := viewPointFromEvent cd e
    (GestureState.default,
      { cd with lazyBrush := cd.lazyUpdate cd.lazyBrush vp false })

/-- `DefaultState.handleDrawEnd`. -/
def handleDrawEnd (_e : Event) (cd : Ctx) : GestureState × Ctx :=
  if cd.props.disabled then (GestureState.disabled, cd)
  else (GestureState.default, cd)

end DefaultState

namespace DisabledState

/-- `DisabledState.handleMouseWheel`: checks the live disabled flag and
delegates to the default state once cleared. -/
def handleMouseWheel (e : Event) (cd : Ctx) : Option GestureState × Ctx :=
  if cd.props.disabled then (some GestureState.disabled, cd)
  else DefaultState.handleMouseWheel e cd

/-- `DisabledState.handleDrawStart` (the delegation passes no
`shouldStartAtEdge`, so the flag is dropped). -/
def handleDrawStart (sq : Rat → Rat) (e : Event) (cd : Ctx) :
    GestureState × Ctx :=
  if cd.props.disabled then (GestureState.disabled, cd)
  else DefaultState.handleDrawStart sq e cd false

/-- `DisabledState.handleDrawMove`. -/
def handleDrawMove (e : Event) (cd : Ctx) : GestureState × Ctx :=
  if cd.props.disabled then (GestureState.disabled, cd)
  else DefaultState.handleDrawMove e cd

/-- `DisabledState.handleDrawEnd`. -/
def handleDrawEnd (e : Event) (cd : Ctx) : GestureState × Ctx :=
  if cd.props.disabled then (GestureState.disabled, cd)
  else DefaultState.handleDrawEnd e cd

end DisabledState

/-- The host dispatch of `handleDrawStart` (`src/index.js` replaces
`interactionSM` with the handler's return value). -/
def handleDrawStart (sq : Rat → Rat) (st : GestureState) (e : Event)
    (cd : Ctx) (shouldStartAtEdge : Bool) : GestureState × Ctx :=
  match st with
  | GestureState.default => DefaultState.handleDrawStart sq e cd shouldStartAtEdge
  | GestureState.disabled => DisabledState.handleDrawStart sq e cd
  | GestureState.pan _ => PanState.handleDrawStart e cd
  | GestureState.waitForPinch p =>
    WaitForPinchState.handleDrawStart sq p e cd shouldStartAtEdge
  | GestureState.scaleOrPan _ => ScaleOrPanState.handleDrawStart sq e cd
  | GestureState.touchPan p => (GestureState.touchPan p, cd)
  | GestureState.touchScale p => (GestureState.touchScale p, cd)
  | GestureState.drawing d =>
    let r := DrawingState.handleDrawStart e cd shouldStartAtEdge d
    (GestureState.drawing r.1, r.2)

/-- The host dispatch of `handleDrawMove`. -/
def handleDrawMove (sq : Rat → Rat) (st : GestureState) (e : Event)
    (cd : Ctx) : GestureState × Ctx :=
  match st with
  | GestureState.default => DefaultState.handleDrawMove e cd
  | GestureState.disabled => DisabledState.handleDrawMove e cd
  | GestureState.pan p => PanState.handleDrawMove p e cd
  | GestureState.waitForPinch p => WaitForPinchState.handleDrawMove sq p e cd
  | GestureState.scaleOrPan p => ScaleOrPanState.handleDrawMove sq p e cd
  | GestureState.touchPan p => TouchPanState.handleDrawMove sq p e cd
  | GestureState.touchScale p => TouchScaleState.handleDrawMove sq p e cd
  | GestureState.drawing d =>
    let r := DrawingState.handleDrawMove e cd false d
    (GestureState.drawing r.1, r.2)

/-- The host dispatch of `handleDrawEnd`. -/
def handleDrawEnd (_sq : Rat → Rat) (st : GestureState) (e : Event)
    (cd : Ctx) : GestureState × Ctx :=
  match st with
  | GestureState.default => DefaultState.handleDrawEnd e cd
  | GestureState.disabled => DisabledState.handleDrawEnd e cd
  | GestureState.pan _ => (GestureState.default, cd)
  | GestureState.waitForPinch p => WaitForPinchState.handleDrawEnd p e cd
  | GestureState.scaleOrPan _ => (GestureState.default, cd)
  | GestureState.touchPan _ => (GestureState.default, cd)
  | GestureState.touchScale _ => (GestureState.default, cd)
  | GestureState.drawing d => DrawingState.handleDrawEnd e cd d

/-- The host dispatch of `handleMouseWheel`.  The active gesture states
all bind `SUPPRESS_SCROLL`, whose return value is `undefined` (see its
doc comment), modelled as `none`. -/
def handleMouseWheel (st : GestureState) (e : Event) (cd : Ctx) :
    Option GestureState × Ctx :=
  match st with
  | GestureState.default => DefaultState.handleMouseWheel e cd
  | GestureState.disabled => DisabledState.handleMouseWheel e cd
  | _ => SUPPRESS_SCROLL e cd

/-- Iterated host dispatch of move events, replacing the machine with
each handler's return value (the host loop of `src/index.js`). -/
def runMoves (sq : Rat → Rat) : GestureState × Ctx → List Event →
    GestureState × Ctx
  | sc, [] => sc
  | (st, cd), e :: rest => runMoves sq (handleDrawMove sq st e cd) rest

/-- A live single-touch move event at client point `p` and time `t`. -/
def mkTouchMove (p : CPoint) (t : Int) : Event :=
  { clientX := p.clientX, clientY := p.clientY, touches := [p],
    changedTouches := [p], ctrlKey := false, deltaY := 0, now := t }

/-- A live single-touch event as `deliverLive` issues it (the spec-side
counterpart of `SyntheticEvent`). -/
def liveTouchEvent (p : CPoint) : Event :=
  { clientX := p.clientX, clientY := p.clientY, touches := [p],
    changedTouches := [p], ctrlKey := false, deltaY := 0, now := 0 }

/-- Modelled from the spec: live delivery of a point list to the drawing
state - the first point through a draw-start on a fresh drawing state,
each subsequent point through a draw-move, in order, each as a live
touch event at that client point. -/
def deliverLiveGo : DrawPayload → Ctx → List CPoint → DrawPayload × Ctx
  | d, cd, [] => (d, cd)
  | d, cd, p :: rest =>
    let r := DrawingState.handleDrawMove (liveTouchEvent p) cd false d
    deliverLiveGo r.1 r.2 rest

/-- Modelled from the spec: see `deliverLiveGo`. -/
def deliverLive (pts : List CPoint) (cd : Ctx) : GestureState × Ctx :=
  match pts with
  | [] => (GestureState.drawing { isDrawing := false }, cd)
  | p :: rest =>
    let r := DrawingState.handleDrawStart (liveTouchEvent p) cd false
      { isDrawing := false }
    let r2 := deliverLiveGo r.1 r.2 rest
    (GestureState.drawing r2.1, r2.2)

/-- A concrete host context for the concrete scenarios: machine enabled,
pan-and-zoom off, Pencil tool, identity view, pass-through lazy filter,
zoom extents [1/3, 3]. -/
def baseCtx : Ctx :=
  { props :=
      { disabled := false, enablePanAndZoom := false, mouseZoomFactor := 1,
        tool := Tool.Pencil, clampLinesToDocument := false,
        canvasWidth := 400, canvasHeight := 400, brushColor := 7,
        brushRadius := 10, zoomMin := 1/3, zoomMax := 3 },
    view := { x := 0, y := 0, scale := 1 },
    lazyBrush := { x := 0, y := 0 },
    lazyEnabled := true,
    lazyUpdate := fun _ p _ => p,
    lastX := 0, lastY := 0, points := [], lines := [], fills := [],
    canvasClientWidth := 400, canvasClientHeight := 400 }

/-- The square-root values the concrete pinch scenario consults
(`Math.sqrt` reaches the machine only through the two squared distances
of that scenario). -/
def sqDict : Rat → Rat :=
  fun q => if q = 100 then 10 else if q = 900 then 30 else 0

/-- The `ScaleOrPan` baseline of the concrete pinch scenario: touches at
(0,0) and (10,0), distance 10, centroid (5,0), identity pan, scale 1. -/
def spPW : SPPayload :=
  { start :=
      { t1 := { clientX := 0, clientY := 0 },
        t2 := { clientX := 10, clientY := 0 },
        distance := 10,
        centroid := { clientX := 5, clientY := 0 } },
    panStart := { x := 0, y := 0 },
    scaleStart := 1 }

/-- The pinch move of the concrete scenario: the touches now sit at
(0,0) and (30,0). -/
def pinchMoveE : Event :=
  { clientX := 0, clientY := 0,
    touches := [{ clientX := 0, clientY := 0 },
      { clientX := 30, clientY := 0 }],
    changedTouches := [], ctrlKey := false, deltaY := 0, now := 0 }

/-- A mouse event (no touches) at a client point and time. -/
def mouseEvt (cx cy : Rat) (t : Int) : Event :=
  { clientX := cx, clientY := cy, touches := [], changedTouches := [],
    ctrlKey := false, deltaY := 0, now := t }

/-- `baseCtx` carrying a given committed line list. -/
def pencilCtx (L : List Stroke) : Ctx :=
  { baseCtx with lines := L }

/-! # Lemmas and claim theorems -/

/-! ## List helpers -/

/-- Reading a list at the index just written by `List.set`. -/
lemma getD_set_self (l : List Nat) (i v : Nat) (h : i < l.length) :
    (l.set i v).getD i 0 = v := by
  simp [List.getD_eq_getElem?_getD, List.getElem?_set_self', List.getElem?_eq_getElem h]

/-- Reading a list away from the index written by `List.set`. -/
lemma getD_set_ne (l : List Nat) (i j v : Nat) (h : i ≠ j) :
    (l.set i v).getD j 0 = l.getD j 0 := by
  simp [List.getD_eq_getElem?_getD, List.getElem?_set_ne h]

/-- Characterisation of a `Uint32Array` write: the value lands at `idx`
exactly when `idx` is a valid linear index, and no other entry moves. -/
lemma writeData_getD (data : List Nat) (idx : Int) (v : Nat) (j : Nat) :
    (writeData data idx v).getD j 0 =
      if 0 ≤ idx ∧ idx < (data.length : Int) ∧ idx.toNat = j then v
      else data.getD j 0 := by
  unfold writeData
  by_cases h1 : 0 ≤ idx ∧ idx < (data.length : Int)
  · rw [if_pos h1]
    by_cases h2 : idx.toNat = j
    · rw [if_pos ⟨h1.1, h1.2, h2⟩, ← h2]
      exact getD_set_self _ _ _ (by omega)
    · rw [if_neg (by tauto), getD_set_ne _ _ _ _ h2]
  · rw [if_neg h1, if_neg (by tauto)]

/-- `writeData` never changes the length of the buffer. -/
lemma writeData_length (data : List Nat) (idx : Int) (v : Nat) :
    (writeData data idx v).length = data.length := by
  unfold writeData
  split <;> simp

/-! ## Raster geometry lemmas -/

/-- Reachable cells are in bounds and colored `S`. -/
lemma Reach_pix {w h : Nat} {data0 : List Nat} {S : Nat} {seed p : Nat × Nat}
    (hr : Reach w h data0 S seed p) : InB w h p ∧ pix w data0 p = S := by
  induction hr with
  | base hb hs => exact ⟨hb, hs⟩
  | step _ _ hb hs _ => exact ⟨hb, hs⟩

/-- Injectivity of the linear index on in-bounds cells. -/
lemma lin_inj {w x1 y1 x2 y2 : Nat} (h1 : x1 < w) (h2 : x2 < w)
    (he : y1 * w + x1 = y2 * w + x2) : x1 = x2 ∧ y1 = y2 := by
  have hw : 0 < w := lt_of_le_of_lt (Nat.zero_le x1) h1
  have hx : x1 = x2 := by
    have e1 : (y1 * w + x1) % w = x1 % w := by
      rw [Nat.mul_comm]; exact Nat.mul_add_mod w y1 x1
    have e2 : (y2 * w + x2) % w = x2 % w := by
      rw [Nat.mul_comm]; exact Nat.mul_add_mod w y2 x2
    rw [he, e2, Nat.mod_eq_of_lt h1, Nat.mod_eq_of_lt h2] at e1
    exact e1.symm
  subst hx
  have hy : y1 * w = y2 * w := by omega
  exact ⟨rfl, Nat.eq_of_mul_eq_mul_right hw hy⟩

/-! ## C1: behaviour of `floodFill` on an out-of-bounds seed

With an out-of-bounds seed the target color is the sentinel -1, which can
never equal the (nonnegative) fill color, so the loop runs.  Every
coordinate outside the bounds keeps reading as -1 even after writes, so
the frontier never empties, and writes whose linear index happens to fall
inside `[0, length)` do mutate the buffer.  The concrete failing input
used below: a 3 by 2 buffer of zeros, seed `(3, 0)`, fill color 5; the
very first iteration writes 5 at linear index `0 * 3 + 3 = 3`, i.e. over
the in-bounds pixel `(0, 1)`. -/

/-- On the concrete C1 instance, once linear index 3 holds the fill color
5 it keeps holding it (the loop only ever writes the fill color). -/
lemma ffStep_keeps_fill_at_3 (s : FFState) (h : s.data.getD 3 0 = 5) :
    (ffStep 3 2 (-1) 5 s).data.getD 3 0 = 5 := by
  match hstack : s.stack with
  | [] => simpa [ffStep, hstack] using h
  | (x, y) :: rest =>
    by_cases hmatch : getPixel 3 2 s.data x y = -1
    · simp only [ffStep, hstack, hmatch, if_pos]
      rw [writeData_getD]
      split
      · rfl
      · exact h
    · simpa [ffStep, hstack, hmatch] using h

/-- Iterated form of `ffStep_keeps_fill_at_3`. -/
lemma ffLoop_keeps_fill_at_3 (n : Nat) :
    ∀ s : FFState, s.data.getD 3 0 = 5 →
      (ffLoop 3 2 (-1) 5 n s).data.getD 3 0 = 5 := by
  induction n with
  | zero => intro s h; simpa [ffLoop] using h
  | succ n ih =>
    intro s h
    match hstack : s.stack with
    | [] => rw [ffLoop, hstack]; exact h
    | q :: rest =>
      rw [ffLoop, hstack]
      exact ih _ (ffStep_keeps_fill_at_3 s h)

/-- On the concrete C1 instance, an iteration never removes the last
stack entry whose x coordinate is at least the width: such entries always
match the sentinel target -1 and push a successor of the same kind. -/
lemma ffStep_keeps_oob_entry (s : FFState)
    (hs : ∃ p ∈ s.stack, (3 : Int) ≤ p.1) :
    ∃ p ∈ (ffStep 3 2 (-1) 5 s).stack, (3 : Int) ≤ p.1 := by
  obtain ⟨p, hmem, hp⟩ := hs
  match hstack : s.stack with
  | [] => simp [hstack] at hmem
  | (x, y) :: rest =>
    rw [hstack] at hmem
    by_cases hmatch : getPixel 3 2 s.data x y = -1
    · rcases List.mem_cons.mp hmem with heq | hrest
      · exact ⟨(x + 1, y), by simp [ffStep, hstack, hmatch], by
          subst heq; exact le_trans hp (by omega)⟩
      · exact ⟨p, by simp [ffStep, hstack, hmatch, hrest], hp⟩
    · rcases List.mem_cons.mp hmem with heq | hrest
      · exfalso
        apply hmatch
        have hx3 : (3 : Int) ≤ x := by subst heq; exact hp
        simp only [getPixel]
        rw [if_pos]
        right; right; left
        exact_mod_cast hx3
      · exact ⟨p, by simp [ffStep, hstack, hmatch, hrest], hp⟩

/-- Iterating the C1 instance preserves the presence of an out-of-bounds
stack entry, so the stack never empties. -/
lemma ffLoop_oob_stack_nonempty (n : Nat) :
    ∀ s : FFState, (∃ p ∈ s.stack, (3 : Int) ≤ p.1) →
      ∃ p ∈ (ffLoop 3 2 (-1) 5 n s).stack, (3 : Int) ≤ p.1 := by
  induction n with
  | zero => intro s hs; simpa [ffLoop] using hs
  | succ n ih =>
    intro s hs
    match hstack : s.stack with
    | [] => obtain ⟨p, hmem, _⟩ := hs; simp [hstack] at hmem
    | q :: rest =>
      have hstep := ffStep_keeps_oob_entry s hs
      have : ffLoop 3 2 (-1) 5 (n + 1) s
          = ffLoop 3 2 (-1) 5 n (ffStep 3 2 (-1) 5 s) := by
        rw [ffLoop]; rw [hstack]
      rw [this]
      exact ih _ hstep

/-- C1.  The claim says an out-of-bounds seed is rejected before any work
with the buffer unchanged and the rejection reported.  The code does the
opposite: on the 3 by 2 zero buffer with seed `(3, 0)` (x = width) and
fill color 5, the target color is the sentinel -1, which never equals the
nonnegative fill color, so the loop runs; its first iteration writes the
fill color at linear index `0 * 3 + 3 = 3`, i.e. over the in-bounds pixel
`(0, 1)` (first and second conjunct: the buffer is mutated for every
fuel), and out-of-bounds coordinates keep matching -1, so the stack never
empties and the JS loop never returns (third conjunct). -/
theorem C1_out_of_bounds_seed_mutates_and_loops :
    (ffLoop 3 2 (-1) 5 1 ⟨[0, 0, 0, 0, 0, 0], [(3, 0)]⟩).data
        = [0, 0, 0, 5, 0, 0]
    ∧ (∀ n, floodFill (n + 1) 3 2 [0, 0, 0, 0, 0, 0] 3 0 5 ≠ [0, 0, 0, 0, 0, 0])
    ∧ (∀ n, (ffLoop 3 2 (-1) 5 n ⟨[0, 0, 0, 0, 0, 0], [(3, 0)]⟩).stack ≠ []) := by
  refine ⟨by decide, ?_, ?_⟩
  · intro n heq
    have hun : floodFill (n + 1) 3 2 [0, 0, 0, 0, 0, 0] 3 0 5
        = (ffLoop 3 2 (-1) 5 (n + 1) ⟨[0, 0, 0, 0, 0, 0], [(3, 0)]⟩).data := by
      norm_num [floodFill, getPixel]
    have hstep1 : ffLoop 3 2 (-1) 5 (n + 1) ⟨[0, 0, 0, 0, 0, 0], [(3, 0)]⟩
        = ffLoop 3 2 (-1) 5 n (ffStep 3 2 (-1) 5 ⟨[0, 0, 0, 0, 0, 0], [(3, 0)]⟩) := by
      rw [ffLoop]
    have hfill : (ffLoop 3 2 (-1) 5 (n + 1)
        ⟨[0, 0, 0, 0, 0, 0], [(3, 0)]⟩).data.getD 3 0 = 5 := by
      rw [hstep1]
      apply ffLoop_keeps_fill_at_3
      decide
    rw [hun] at heq
    rw [heq] at hfill
    exact absurd hfill (by decide)
  · intro n hempty
    obtain ⟨p, hmem, _⟩ := ffLoop_oob_stack_nonempty n
      ⟨[0, 0, 0, 0, 0, 0], [(3, 0)]⟩ ⟨(3, 0), by simp, by norm_num⟩
    rw [hempty] at hmem
    simp at hmem

/-! ## Stack flood fill correctness (groundwork for C3 and C10) -/

/-- `getPixel` at an in-bounds cell reads the cell color. -/
lemma getPixel_inb {w h : Nat} (data : List Nat) {p : Nat × Nat}
    (hp : InB w h p) :
    getPixel w h data (p.1 : Int) (p.2 : Int) = (pix w data p : Int) := by
  obtain ⟨h1, h2⟩ := hp
  unfold getPixel pix
  rw [if_neg]
  · simp
  · omega

/-- If `getPixel` returns a natural color, the coordinate is in bounds and
the cell has that color. -/
lemma getPixel_eq_natColor {w h : Nat} {data : List Nat} {x y : Int} {S : Nat}
    (hm : getPixel w h data x y = (S : Int)) :
    0 ≤ x ∧ x < (w : Int) ∧ 0 ≤ y ∧ y < (h : Int) ∧
      data.getD (y.toNat * w + x.toNat) 0 = S := by
  unfold getPixel at hm
  by_cases hcond : x < 0 ∨ y < 0 ∨ (w : Int) ≤ x ∨ (h : Int) ≤ y
  · rw [if_pos hcond] at hm
    exfalso
    omega
  · rw [if_neg hcond] at hm
    push_neg at hcond
    exact ⟨by omega, by omega, by omega, by omega, by exact_mod_cast hm⟩

/-- Reading the freshly painted cell. -/
lemma pix_set_self {w : Nat} (d : List Nat) (a b v : Nat)
    (hlt : b * w + a < d.length) :
    pix w (d.set (b * w + a) v) (a, b) = v := by
  unfold pix
  exact getD_set_self _ _ _ hlt

/-- Reading any other in-bounds cell after painting one cell. -/
lemma pix_set_ne {w h : Nat} (d : List Nat) {a b : Nat} {p : Nat × Nat}
    (v : Nat) (hinbe : InB w h (a, b)) (hinbp : InB w h p)
    (hne : p ≠ (a, b)) :
    pix w (d.set (b * w + a) v) p = pix w d p := by
  unfold pix
  apply getD_set_ne
  intro hcontra
  apply hne
  obtain ⟨hx, hy⟩ := lin_inj hinbe.1 hinbp.1 hcontra
  exact Prod.ext hx.symm hy.symm

/-- The origin of a frontier path is the cast of an in-bounds cell whose
current color is `S`. -/
lemma PathT_origin {w h S : Nat} {data : List Nat} {q : Int × Int}
    {p : Nat × Nat} (hp : PathT w h S data q p) :
    ∃ p0 : Nat × Nat, q = ((p0.1 : Int), (p0.2 : Int)) ∧ InB w h p0 ∧
      pix w data p0 = S := by
  induction hp with
  | base p hin hs => exact ⟨p, rfl, hin, hs⟩
  | step _ _ _ _ ih => exact ih

/-- The endpoint of a frontier path is in bounds and colored `S`. -/
lemma PathT_endpoint {w h S : Nat} {data : List Nat} {q : Int × Int}
    {p : Nat × Nat} (hp : PathT w h S data q p) :
    InB w h p ∧ pix w data p = S := by
  induction hp with
  | base p hin hs => exact ⟨hin, hs⟩
  | step _ _ hin hs _ => exact ⟨hin, hs⟩

/-- Painting one matched cell preserves frontier reachability: any old
path now ends in a painted cell, survives unchanged, or can be restarted
at a neighbour of the painted cell. -/
lemma pathAfterPaint {w h S fill : Nat} {d : List Nat} {ex ey : Int}
    (hfS : fill ≠ S)
    (hx0 : 0 ≤ ex) (hx1 : ex < (w : Int)) (hy0 : 0 ≤ ey) (hy1 : ey < (h : Int))
    (hlt : ey.toNat * w + ex.toNat < d.length)
    {q : Int × Int} {p : Nat × Nat}
    (hp : PathT w h S d q p) :
    pix w (d.set (ey.toNat * w + ex.toNat) fill) p = fill
    ∨ PathT w h S (d.set (ey.toNat * w + ex.toNat) fill) q p
    ∨ ∃ nb : Nat × Nat, Adj (ex.toNat, ey.toNat) nb ∧
        PathT w h S (d.set (ey.toNat * w + ex.toNat) fill)
          ((nb.1 : Int), (nb.2 : Int)) p := by
  have hinbe : InB w h (ex.toNat, ey.toNat) := ⟨by omega, by omega⟩
  induction hp with
  | base p hin hs =>
    by_cases hpe : p = (ex.toNat, ey.toNat)
    · left
      rw [hpe]
      exact pix_set_self d ex.toNat ey.toNat fill hlt
    · right; left
      refine PathT.base p hin ?_
      rw [pix_set_ne d fill hinbe hin hpe]
      exact hs
  | @step q p0 p hP hAdj hin hs ih =>
    by_cases hpe : p = (ex.toNat, ey.toNat)
    · left
      rw [hpe]
      exact pix_set_self d ex.toNat ey.toNat fill hlt
    · have hsnew : pix w (d.set (ey.toNat * w + ex.toNat) fill) p = S := by
        rw [pix_set_ne d fill hinbe hin hpe]
        exact hs
      rcases ih with h1 | h2 | ⟨nb, ha, hPn⟩
      · have hend := PathT_endpoint hP
        have hp0e : p0 = (ex.toNat, ey.toNat) := by
          by_contra hne0
          rw [pix_set_ne d fill hinbe hend.1 hne0] at h1
          exact hfS (h1.symm.trans hend.2)
        right; right
        exact ⟨p, hp0e ▸ hAdj, PathT.base p hin hsnew⟩
      · right; left
        exact PathT.step h2 hAdj hin hsnew
      · right; right
        exact ⟨nb, ha, PathT.step hPn hAdj hin hsnew⟩

/-- The linear index of an in-bounds cell is below `w * h`. -/
lemma lin_lt {w h a b : Nat} (ha : a < h) (hb : b < w) : a * w + b < w * h := by
  calc a * w + b < a * w + w := by omega
  _ = (a + 1) * w := by ring
  _ ≤ h * w := Nat.mul_le_mul_right w ha
  _ = w * h := Nat.mul_comm h w

/-- A matched pop writes through `writeData` exactly as a `List.set` at
the linear index of the popped cell. -/
lemma writeData_matched {w h : Nat} {d : List Nat} {x y : Int}
    (hx0 : 0 ≤ x) (hx1 : x < (w : Int)) (hy0 : 0 ≤ y) (hy1 : y < (h : Int))
    (hlen : d.length = w * h) (fill : Nat) :
    writeData d (y * (w : Int) + x) fill = d.set (y.toNat * w + x.toNat) fill := by
  have hidx : y * (w : Int) + x = ((y.toNat * w + x.toNat : Nat) : Int) := by
    push_cast
    rw [Int.toNat_of_nonneg hx0, Int.toNat_of_nonneg hy0]
  have hlin : y.toNat * w + x.toNat < w * h := lin_lt (by omega) (by omega)
  unfold writeData
  rw [if_pos]
  · rw [hidx, Int.toNat_natCast]
  · constructor
    · rw [hidx]; positivity
    · rw [hidx, hlen]; exact_mod_cast hlin

/-- The soundness invariant survives one loop iteration. -/
lemma sinv_ffStep {w h : Nat} {data0 : List Nat} {S fill : Nat} {s : FFState}
    (hs : SInv w h data0 S fill s) :
    SInv w h data0 S fill (ffStep w h (S : Int) fill s) := by
  match hstack : s.stack with
  | [] =>
    simpa [ffStep, hstack] using hs
  | (x, y) :: rest =>
    by_cases hmatch : getPixel w h s.data x y = (S : Int)
    · obtain ⟨hx0, hx1, hy0, hy1, hcell⟩ := getPixel_eq_natColor hmatch
      have hwrite := writeData_matched hx0 hx1 hy0 hy1 hs.1 fill
      have hlin : y.toNat * w + x.toNat < w * h := lin_lt (by omega) (by omega)
      simp only [ffStep, hstack, hmatch, if_pos, hwrite]
      constructor
      · rw [List.length_set]
        exact hs.1
      · intro i hi hne
        by_cases hil : i = y.toNat * w + x.toNat
        · subst hil
          have hval : (s.data.set (y.toNat * w + x.toNat) fill).getD
              (y.toNat * w + x.toNat) 0 = fill :=
            getD_set_self _ _ _ (by rw [hs.1]; exact hlin)
          refine ⟨?_, hval⟩
          by_cases hsame : s.data.getD (y.toNat * w + x.toNat) 0
              = data0.getD (y.toNat * w + x.toNat) 0
          · rw [← hsame]; exact hcell
          · exact (hs.2 _ hi hsame).1
        · rw [getD_set_ne _ _ _ _ (fun hc => hil hc.symm)] at hne ⊢
          exact hs.2 i hi hne
    · simp only [ffStep, hstack, hmatch, if_neg]
      exact ⟨hs.1, hs.2⟩

/-- The completeness invariant survives one loop iteration. -/
lemma cover_ffStep {w h : Nat} {data0 : List Nat} {S fill : Nat}
    {seed : Nat × Nat} {s : FFState}
    (hfS : fill ≠ S) (hlen : s.data.length = w * h)
    (hc : Cover w h data0 S fill seed s) :
    Cover w h data0 S fill seed (ffStep w h (S : Int) fill s) := by
  match hstack : s.stack with
  | [] =>
    simpa [ffStep, hstack] using hc
  | (x, y) :: rest =>
    by_cases hmatch : getPixel w h s.data x y = (S : Int)
    · obtain ⟨hx0, hx1, hy0, hy1, hcell⟩ := getPixel_eq_natColor hmatch
      have hwrite := writeData_matched hx0 hx1 hy0 hy1 hlen fill
      have hinbe : InB w h (x.toNat, y.toNat) := ⟨by omega, by omega⟩
      have hlt : y.toNat * w + x.toNat < s.data.length := by
        rw [hlen]; exact lin_lt (by omega) (by omega)
      have hxx : (x.toNat : Int) = x := Int.toNat_of_nonneg hx0
      have hyy : (y.toNat : Int) = y := Int.toNat_of_nonneg hy0
      intro p hp
      simp only [ffStep, hstack, hmatch, if_pos, hwrite]
      rcases hc p hp with hpaint | ⟨q0, hq0mem, hPath⟩
      · left
        by_cases hpe : p = (x.toNat, y.toNat)
        · rw [hpe]
          exact pix_set_self s.data x.toNat y.toNat fill hlt
        · rw [pix_set_ne _ _ hinbe (Reach_pix hp).1 hpe]
          exact hpaint
      · rcases pathAfterPaint hfS hx0 hx1 hy0 hy1 hlt hPath with h1 | h2 | ⟨nb, hAdj, hPn⟩
        · left
          exact h1
        · rw [hstack] at hq0mem
          rcases List.mem_cons.mp hq0mem with hq0e | hq0rest
          · exfalso
            obtain ⟨p0, hcast, hinb0, hS0⟩ := PathT_origin h2
            have hp0 : p0 = (x.toNat, y.toNat) := by
              rw [hq0e] at hcast
              have h1x : x = (p0.1 : Int) := congrArg Prod.fst hcast
              have h2y : y = (p0.2 : Int) := congrArg Prod.snd hcast
              have : p0.1 = x.toNat := by omega
              have : p0.2 = y.toNat := by omega
              ext
              · omega
              · omega
            rw [hp0, pix_set_self s.data x.toNat y.toNat fill hlt] at hS0
            exact hfS hS0
          · right
            exact ⟨q0, by simp [hq0rest], h2⟩
        · right
          refine ⟨((nb.1 : Int), (nb.2 : Int)), ?_, hPn⟩
          simp only [List.mem_cons]
          rcases hAdj with ⟨hfst, hsnd⟩ | ⟨hsnd, hfst⟩
          · have hfst2 : x.toNat = nb.1 := hfst
            rcases hsnd with hup | hdn
            · right; left
              have e1 : (nb.1 : Int) = x := by omega
              have e2 : (nb.2 : Int) = y + 1 := by
                have hup2 : y.toNat + 1 = nb.2 := hup
                omega
              rw [Prod.mk.injEq]
              exact ⟨e1, e2⟩
            · left
              have e1 : (nb.1 : Int) = x := by omega
              have e2 : (nb.2 : Int) = y - 1 := by
                have hdn2 : nb.2 + 1 = y.toNat := hdn
                omega
              rw [Prod.mk.injEq]
              exact ⟨e1, e2⟩
          · have hsnd2 : y.toNat = nb.2 := hsnd
            rcases hfst with hri | hle
            · right; right; right; left
              have e1 : (nb.1 : Int) = x + 1 := by
                have hri2 : x.toNat + 1 = nb.1 := hri
                omega
              have e2 : (nb.2 : Int) = y := by omega
              rw [Prod.mk.injEq]
              exact ⟨e1, e2⟩
            · right; right; left
              have e1 : (nb.1 : Int) = x - 1 := by
                have hle2 : nb.1 + 1 = x.toNat := hle
                omega
              have e2 : (nb.2 : Int) = y := by omega
              rw [Prod.mk.injEq]
              exact ⟨e1, e2⟩
    · intro p hp
      simp only [ffStep, hstack, hmatch, if_neg]
      rcases hc p hp with hpaint | ⟨q0, hq0mem, hPath⟩
      · left
        exact hpaint
      · rw [hstack] at hq0mem
        rcases List.mem_cons.mp hq0mem with hq0e | hq0rest
        · exfalso
          obtain ⟨p0, hcast, hinb0, hS0⟩ := PathT_origin hPath
          apply hmatch
          rw [hq0e] at hcast
          have h1x : x = (p0.1 : Int) := congrArg Prod.fst hcast
          have h2y : y = (p0.2 : Int) := congrArg Prod.snd hcast
          rw [h1x, h2y, getPixel_inb s.data hinb0, hS0]
        · right
          exact ⟨q0, hq0rest, hPath⟩

/-- Setting an `S`-colored entry to a different value strictly decreases
the number of `S`-colored entries. -/
lemma countP_set_lt (l : List Nat) (i v S : Nat) (hi : i < l.length)
    (hS : l.getD i 0 = S) (hv : v ≠ S) :
    (l.set i v).countP (fun c => c == S) < l.countP (fun c => c == S) := by
  induction l generalizing i with
  | nil => simp at hi
  | cons a t ih =>
    cases i with
    | zero =>
      have ha : a = S := by simpa using hS
      rw [List.set_cons_zero, List.countP_cons, List.countP_cons]
      simp [ha, hv]
    | succ j =>
      rw [List.set_cons_succ, List.countP_cons, List.countP_cons]
      have hrec := ih j (by simpa using hi) (by simpa using hS)
      omega

/-- A loop iteration never changes the buffer length. -/
lemma ffStep_length {w h : Nat} {target : Int} {fill : Nat} (s : FFState) :
    (ffStep w h target fill s).data.length = s.data.length := by
  match hstack : s.stack with
  | [] => simp [ffStep, hstack]
  | (x, y) :: rest =>
    by_cases hmatch : getPixel w h s.data x y = target
    · simp [ffStep, hstack, hmatch, writeData_length]
    · simp [ffStep, hstack, hmatch]

/-- With a nonempty stack, one iteration strictly decreases the measure
(painting removes an `S` cell and pays for the four pushes; a discarded
pop shrinks the stack). -/
lemma ffMeasure_decreases {w h S fill : Nat} {s : FFState} (hfS : fill ≠ S)
    (hlen : s.data.length = w * h) (hne : s.stack ≠ []) :
    ffMeasure S (ffStep w h (S : Int) fill s) < ffMeasure S s := by
  match hstack : s.stack with
  | [] => exact absurd hstack hne
  | (x, y) :: rest =>
    by_cases hmatch : getPixel w h s.data x y = (S : Int)
    · obtain ⟨hx0, hx1, hy0, hy1, hcell⟩ := getPixel_eq_natColor hmatch
      have hwrite := writeData_matched hx0 hx1 hy0 hy1 hlen fill
      have hlt : y.toNat * w + x.toNat < s.data.length := by
        rw [hlen]; exact lin_lt (by omega) (by omega)
      have hcount := countP_set_lt s.data (y.toNat * w + x.toNat) fill S hlt hcell hfS
      simp only [ffMeasure, ffStep, hstack, hmatch, if_pos, hwrite,
        List.length_cons]
      omega
    · have hred : ffStep w h (S : Int) fill s = { data := s.data, stack := rest } := by
        simp [ffStep, hstack, hmatch]
      rw [hred]
      simp only [ffMeasure, hstack, List.length_cons]
      omega

/-- Enough fuel (the measure) always drains the stack. -/
lemma ffLoop_reaches_empty (w h S fill : Nat) (hfS : fill ≠ S) :
    ∀ k s, s.data.length = w * h → ffMeasure S s ≤ k →
      (ffLoop w h (S : Int) fill k s).stack = [] := by
  intro k
  induction k with
  | zero =>
    intro s hlen hm
    have hst : s.stack.length = 0 := by
      unfold ffMeasure at hm; omega
    rw [ffLoop]
    exact List.length_eq_zero.mp hst
  | succ k ih =>
    intro s hlen hm
    match hstack : s.stack with
    | [] => rw [ffLoop, hstack]; exact hstack
    | q :: rest =>
      rw [ffLoop, hstack]
      apply ih
      · rw [ffStep_length]; exact hlen
      · have := ffMeasure_decreases hfS hlen (s := s) (by rw [hstack]; simp)
        omega

/-- The soundness invariant survives any number of iterations. -/
lemma sinv_ffLoop (w h : Nat) (data0 : List Nat) (S fill : Nat) (n : Nat) :
    ∀ s, SInv w h data0 S fill s →
      SInv w h data0 S fill (ffLoop w h (S : Int) fill n s) := by
  induction n with
  | zero => intro s hs; rw [ffLoop]; exact hs
  | succ n ih =>
    intro s hs
    match hstack : s.stack with
    | [] => rw [ffLoop, hstack]; exact hs
    | q :: rest => rw [ffLoop, hstack]; exact ih _ (sinv_ffStep hs)

/-- The completeness invariant survives any number of iterations (the
soundness invariant is carried along for the buffer length). -/
lemma cover_ffLoop (w h : Nat) (data0 : List Nat) (S fill : Nat)
    (seed : Nat × Nat) (hfS : fill ≠ S) (n : Nat) :
    ∀ s, SInv w h data0 S fill s → Cover w h data0 S fill seed s →
      Cover w h data0 S fill seed (ffLoop w h (S : Int) fill n s) := by
  induction n with
  | zero => intro s _ hc; rw [ffLoop]; exact hc
  | succ n ih =>
    intro s hs hc
    match hstack : s.stack with
    | [] => rw [ffLoop, hstack]; exact hc
    | q :: rest =>
      rw [ffLoop, hstack]
      exact ih _ (sinv_ffStep hs) (cover_ffStep hfS hs.1 hc)

/-- Region reachability gives a frontier path from the seed entry. -/
lemma Reach_to_PathT {w h : Nat} {data0 : List Nat} {S : Nat}
    {seed p : Nat × Nat} (hr : Reach w h data0 S seed p) :
    PathT w h S data0 ((seed.1 : Int), (seed.2 : Int)) p := by
  induction hr with
  | base hin hs => exact PathT.base seed hin hs
  | step _ hAdj hin hs ih => exact PathT.step ih hAdj hin hs

/-- The `getPixel` read at the in-bounds seed is the seed cell color. -/
lemma getPixel_seed {w h : Nat} (data0 : List Nat) {sx sy : Nat}
    (hx : sx < w) (hy : sy < h) :
    getPixel w h data0 (sx : Int) (sy : Int)
      = ((data0.getD (sy * w + sx) 0 : Nat) : Int) := by
  have := getPixel_inb (w := w) (h := h) data0 (p := (sx, sy)) ⟨hx, hy⟩
  simpa [pix] using this

/-- C10.  For every well-formed buffer, in-bounds seed and fill color,
`floodFill` of `src/index.js` never changes a pixel whose color at call
time differed from the seed pixel color: only target-colored pixels are
ever overwritten.  This holds at every fuel, hence in particular for any
completed run. -/
theorem C10_fill_only_overwrites_seed_colored_pixels
    (fuel w h : Nat) (data0 : List Nat) (sx sy fill : Nat)
    (hlen : data0.length = w * h) (hx : sx < w) (hy : sy < h) :
    ∀ i, i < w * h →
      data0.getD i 0 ≠ data0.getD (sy * w + sx) 0 →
      (floodFill fuel w h data0 (sx : Int) (sy : Int) fill).getD i 0
        = data0.getD i 0 := by
  intro i hi hne
  have hseed := getPixel_seed (w := w) (h := h) data0 hx hy
  by_cases htf : ((data0.getD (sy * w + sx) 0 : Nat) : Int) ≠ (fill : Int)
  · have hrun : floodFill fuel w h data0 (sx : Int) (sy : Int) fill
        = (ffLoop w h ((data0.getD (sy * w + sx) 0 : Nat) : Int) fill fuel
            { data := data0, stack := [((sx : Int), (sy : Int))] }).data := by
      simp only [floodFill, hseed]
      rw [if_pos htf]
    rw [hrun]
    have hsinv := sinv_ffLoop w h data0 (data0.getD (sy * w + sx) 0) fill fuel
      { data := data0, stack := [((sx : Int), (sy : Int))] }
      ⟨hlen, fun j _ hj => absurd rfl hj⟩
    by_contra hneq
    exact hne ((hsinv.2 i hi hneq).1)
  · have hrun : floodFill fuel w h data0 (sx : Int) (sy : Int) fill = data0 := by
      simp only [floodFill, hseed]
      rw [if_neg htf]
    rw [hrun]

/-- C10 witness: a concrete evaluation of the theorem on the 1 by 3
buffer `[7, 7, 9]` with seed `(0, 0)` and fill color 4 (the pixel colored
9 differs from the seed color 7 and must keep its value). -/
theorem C10_fill_only_overwrites_seed_colored_pixels_witness :
    (floodFill 10 3 1 [7, 7, 9] 0 0 4).getD 2 0 = 9 :=
  C10_fill_only_overwrites_seed_colored_pixels 10 3 1 [7, 7, 9] 0 0 4
    (by decide) (by decide) (by decide) 2 (by decide) (by decide)

/-- C3.  On a well-formed buffer whose cells of the seed color `S` form a
single 4-connected region containing the in-bounds seed (hypothesis
`hconn`: every `S`-colored cell is reachable from the seed), filling with
a color distinct from `S` terminates (the loop stack empties within
`ffMeasure` iterations) and recolors exactly the cells of that region:
the result holds `newC` exactly at the indices originally colored `S` and
the original color everywhere else. -/
theorem C3_fill_recolors_exactly_the_seed_region
    (w h : Nat) (data0 : List Nat) (sx sy newC : Nat)
    (hlen : data0.length = w * h) (hx : sx < w) (hy : sy < h)
    (hnew : newC ≠ data0.getD (sy * w + sx) 0)
    (hconn : ∀ a b, a < w → b < h →
        data0.getD (b * w + a) 0 = data0.getD (sy * w + sx) 0 →
        Reach w h data0 (data0.getD (sy * w + sx) 0) (sx, sy) (a, b)) :
    ∃ n, (ffLoop w h ((data0.getD (sy * w + sx) 0 : Nat) : Int) newC n
            { data := data0, stack := [((sx : Int), (sy : Int))] }).stack = []
      ∧ ∀ i, i < w * h →
          (floodFill n w h data0 (sx : Int) (sy : Int) newC).getD i 0 =
            if data0.getD i 0 = data0.getD (sy * w + sx) 0 then newC
            else data0.getD i 0 := by
  refine ⟨ffMeasure (data0.getD (sy * w + sx) 0)
    { data := data0, stack := [((sx : Int), (sy : Int))] }, ?_, ?_⟩
  · exact ffLoop_reaches_empty w h (data0.getD (sy * w + sx) 0) newC hnew _
      _ hlen (le_refl _)
  · intro i hi
    have hseed := getPixel_seed (w := w) (h := h) data0 hx hy
    have htf : ((data0.getD (sy * w + sx) 0 : Nat) : Int) ≠ (newC : Int) := by
      intro he
      exact hnew (by exact_mod_cast he.symm)
    have hrun : floodFill (ffMeasure (data0.getD (sy * w + sx) 0)
          { data := data0, stack := [((sx : Int), (sy : Int))] })
          w h data0 (sx : Int) (sy : Int) newC
        = (ffLoop w h ((data0.getD (sy * w + sx) 0 : Nat) : Int) newC
            (ffMeasure (data0.getD (sy * w + sx) 0)
              { data := data0, stack := [((sx : Int), (sy : Int))] })
            { data := data0, stack := [((sx : Int), (sy : Int))] }).data := by
      simp only [floodFill, hseed]
      rw [if_pos htf]
    have hempty := ffLoop_reaches_empty w h (data0.getD (sy * w + sx) 0)
      newC hnew _ { data := data0, stack := [((sx : Int), (sy : Int))] }
      hlen (le_refl _)
    have hsinv := sinv_ffLoop w h data0 (data0.getD (sy * w + sx) 0) newC
      (ffMeasure (data0.getD (sy * w + sx) 0)
        { data := data0, stack := [((sx : Int), (sy : Int))] })
      { data := data0, stack := [((sx : Int), (sy : Int))] }
      ⟨hlen, fun j _ hj => absurd rfl hj⟩
    have hcover := cover_ffLoop w h data0 (data0.getD (sy * w + sx) 0) newC
      (sx, sy) hnew
      (ffMeasure (data0.getD (sy * w + sx) 0)
        { data := data0, stack := [((sx : Int), (sy : Int))] })
      { data := data0, stack := [((sx : Int), (sy : Int))] }
      ⟨hlen, fun j _ hj => absurd rfl hj⟩
      (fun p hp => Or.inr ⟨((sx : Int), (sy : Int)), by simp,
        Reach_to_PathT hp⟩)
    rw [hrun]
    by_cases hcol : data0.getD i 0 = data0.getD (sy * w + sx) 0
    · rw [if_pos hcol]
      have hw : 0 < w := lt_of_le_of_lt (Nat.zero_le sx) hx
      have hpx : i % w < w := Nat.mod_lt _ hw
      have hpy : i / w < h := by
        rw [Nat.div_lt_iff_lt_mul hw, Nat.mul_comm h w]
        exact hi
      have hlini : (i / w) * w + (i % w) = i := by
        have hdm := Nat.div_add_mod i w
        rw [Nat.mul_comm (i / w) w]
        exact hdm
      have hreach := hconn (i % w) (i / w) hpx hpy
        (by rw [hlini]; exact hcol)
      rcases hcover (i % w, i / w) hreach with hfillp | ⟨q, hqmem, _⟩
      · have hfill2 : (ffLoop w h ((data0.getD (sy * w + sx) 0 : Nat) : Int)
            newC (ffMeasure (data0.getD (sy * w + sx) 0)
              { data := data0, stack := [((sx : Int), (sy : Int))] })
            { data := data0,
              stack := [((sx : Int), (sy : Int))] }).data.getD
            (i / w * w + i % w) 0 = newC := hfillp
        rw [hlini] at hfill2
        exact hfill2
      · rw [hempty] at hqmem
        simp at hqmem
    · rw [if_neg hcol]
      by_contra hneq
      exact hcol ((hsinv.2 i hi hneq).1)

/-- C3 witness: the spec scenario of a 1 row by 3 column buffer
`[white, white, black]` (packed 32-bit values `0xFFFFFFFF`, `0xFFFFFFFF`,
`0xFF000000`) with seed `(0, 0)` and red (`0xFF0000FF`) as fill color.
The first conjunct evaluates the fill concretely to `[red, red, black]`;
the second instantiates the C3 theorem, discharging the connectivity
hypothesis by exhibiting the two white cells as the reachable region. -/
theorem C3_fill_recolors_exactly_the_seed_region_witness :
    floodFill 12 3 1 [4294967295, 4294967295, 4278190080] 0 0 4278190335
        = [4278190335, 4278190335, 4278190080]
    ∧ ∃ n, (ffLoop 3 1
          ((([4294967295, 4294967295, 4278190080] : List Nat).getD
              (0 * 3 + 0) 0 : Nat) : Int) 4278190335 n
          { data := [4294967295, 4294967295, 4278190080],
            stack := [((0 : Int), (0 : Int))] }).stack = []
      ∧ ∀ i, i < 3 * 1 →
          (floodFill n 3 1 [4294967295, 4294967295, 4278190080]
              0 0 4278190335).getD i 0 =
            if ([4294967295, 4294967295, 4278190080] : List Nat).getD i 0
                = ([4294967295, 4294967295, 4278190080] : List Nat).getD
                    (0 * 3 + 0) 0
            then 4278190335
            else ([4294967295, 4294967295, 4278190080] : List Nat).getD i 0 := by
  constructor
  · decide
  · exact C3_fill_recolors_exactly_the_seed_region 3 1
      [4294967295, 4294967295, 4278190080] 0 0 4278190335
      (by decide) (by decide) (by decide) (by decide)
      (by
        intro a b ha hb hS
        interval_cases b
        interval_cases a
        · exact Reach.base (by decide) (by decide)
        · exact Reach.step (Reach.base (by decide) (by decide))
            (by decide) (by decide) (by decide)
        · exact absurd hS (by decide))

/-! ## Span flood fill lemmas (groundwork for C6 and C7) -/

/-- Generic version of `getD_set_self` for any element type. -/
lemma getD_set_self_g {α : Type} (l : List α) (i : Nat) (v d : α)
    (h : i < l.length) : (l.set i v).getD i d = v := by
  simp [List.getD_eq_getElem?_getD, List.getElem?_set_self', List.getElem?_eq_getElem h]

/-- Generic version of `getD_set_ne` for any element type. -/
lemma getD_set_ne_g {α : Type} (l : List α) (i j : Nat) (v d : α)
    (h : i ≠ j) : (l.set i v).getD j d = l.getD j d := by
  simp [List.getD_eq_getElem?_getD, List.getElem?_set_ne h]

/-- Painting a pixel preserves the image dimensions and buffer length. -/
lemma setPixelColor_dims (c : ColorRGBA) (p : Nat × Nat) (img : Image) :
    (FloodFill.setPixelColor c p img).width = img.width
    ∧ (FloodFill.setPixelColor c p img).height = img.height
    ∧ (FloodFill.setPixelColor c p img).data.length = img.data.length := by
  refine ⟨rfl, rfl, ?_⟩
  simp [FloodFill.setPixelColor, setColorAtPixel]

/-- Reading the freshly painted pixel. -/
lemma getColorAtPixel_set_self {w h : Nat} (img : Image) (c : ColorRGBA)
    {a b : Nat} (hw : img.width = w) (hlen : img.data.length = w * h)
    (ha : a < w) (hb : b < h) :
    getColorAtPixel (FloodFill.setPixelColor c (a, b) img) a b = c := by
  unfold getColorAtPixel FloodFill.setPixelColor setColorAtPixel
  simp only [hw]
  exact getD_set_self_g _ _ _ _ (by rw [hlen]; exact lin_lt hb ha)

/-- Reading any other in-bounds pixel after painting one pixel. -/
lemma getColorAtPixel_set_ne {w : Nat} (img : Image) (c : ColorRGBA)
    {a b a2 b2 : Nat} (hw : img.width = w) (ha : a < w) (ha2 : a2 < w)
    (hne : (a2, b2) ≠ (a, b)) :
    getColorAtPixel (FloodFill.setPixelColor c (a, b) img) a2 b2
      = getColorAtPixel img a2 b2 := by
  unfold getColorAtPixel FloodFill.setPixelColor setColorAtPixel
  simp only [hw]
  apply getD_set_ne_g
  intro hcontra
  apply hne
  obtain ⟨hx, hy⟩ := lin_inj ha ha2 hcontra
  exact Prod.ext hx.symm hy.symm

/-- A color always matches itself, at any tolerance. -/
lemma isSameColor_refl (c : ColorRGBA) (tol : Nat) :
    isSameColor c c tol = true := by
  simp [isSameColor]

/-- Specification of the left extension loop: starting at column `minX`
of row `y`, it returns the smallest column `mn` such that all columns of
`[mn, minX)` match the replaced color (in the input image), the column
left of `mn` does not match (or `mn` is the image edge), and exactly the
cells `(c, y)` with `mn ≤ c < minX` get painted to the new color. -/
lemma leftLoop_spec (replaced newC : ColorRGBA) (tol : Nat)
    (w h y : Nat) (hy : y < h) :
    ∀ (minX : Nat) (img : Image), img.width = w → img.height = h →
      img.data.length = w * h → minX ≤ w →
      ∃ imgR mn,
        FloodFill.leftLoop replaced newC tol img minX y = (imgR, mn)
        ∧ imgR.width = w ∧ imgR.height = h ∧ imgR.data.length = w * h
        ∧ mn ≤ minX
        ∧ (∀ c, mn ≤ c → c < minX →
            isSameColor replaced (getColorAtPixel img c y) tol = true)
        ∧ (mn = 0 ∨ (1 ≤ mn ∧
            isSameColor replaced (getColorAtPixel img (mn - 1) y) tol = false))
        ∧ (∀ c2 y2, c2 < w → y2 < h →
            getColorAtPixel imgR c2 y2 =
              if y2 = y ∧ mn ≤ c2 ∧ c2 < minX then newC
              else getColorAtPixel img c2 y2) := by
  intro minX
  induction minX with
  | zero =>
    intro img hw hh hlen _
    refine ⟨img, 0, by rw [FloodFill.leftLoop], hw, hh, hlen, le_refl _,
      ?_, Or.inl rfl, ?_⟩
    · intro c _ hc2
      omega
    · intro c2 y2 _ _
      rw [if_neg]
      rintro ⟨_, _, hlt⟩
      omega
  | succ m ih =>
    intro img hw hh hlen hle
    have hmw : m < w := by omega
    have hnb : FloodFill.getPixelNeighbourLeft img (m + 1) y = some (m, y) := by
      unfold FloodFill.getPixelNeighbourLeft
      rw [if_pos ⟨by omega, by rw [hw]; omega⟩]
      simp
    by_cases hvalid : isSameColor replaced (getColorAtPixel img m y) tol = true
    · have hred : FloodFill.leftLoop replaced newC tol img (m + 1) y
          = FloodFill.leftLoop replaced newC tol
              (FloodFill.setPixelColor newC (m, y) img) m y := by
        rw [FloodFill.leftLoop, hnb]
        simp [FloodFill.isValidTarget, hvalid]
      have hdims := setPixelColor_dims newC (m, y) img
      obtain ⟨imgR, mn, heq, hwR, hhR, hlenR, hmn, hspan, hbound, hchar⟩ :=
        ih (FloodFill.setPixelColor newC (m, y) img)
          (by rw [hdims.1, hw]) (by rw [hdims.2.1, hh])
          (by rw [hdims.2.2, hlen]) (by omega)
      refine ⟨imgR, mn, by rw [hred]; exact heq, hwR, hhR, hlenR, by omega,
        ?_, ?_, ?_⟩
      · intro c hc1 hc2
        by_cases hcm : c = m
        · subst hcm
          exact hvalid
        · have hmatch1 := hspan c hc1 (by omega)
          rw [getColorAtPixel_set_ne img newC hw hmw (by omega)
            (fun hp => hcm (congrArg Prod.fst hp))] at hmatch1
          exact hmatch1
      · rcases hbound with h0 | ⟨hge, hb⟩
        · exact Or.inl h0
        · right
          refine ⟨hge, ?_⟩
          rw [getColorAtPixel_set_ne img newC hw hmw (by omega)
            (fun hp => by
              have := congrArg Prod.fst hp
              simp only at this
              omega)] at hb
          exact hb
      · intro c2 y2 hc2 hy2
        rw [hchar c2 y2 hc2 hy2]
        by_cases hcond : y2 = y ∧ mn ≤ c2 ∧ c2 < m
        · rw [if_pos hcond, if_pos ⟨hcond.1, hcond.2.1, by omega⟩]
        · by_cases hcm : y2 = y ∧ c2 = m
          · rw [if_neg hcond]
            obtain ⟨hy2y, hc2m⟩ := hcm
            subst hy2y
            subst hc2m
            rw [getColorAtPixel_set_self img newC hw hlen hmw hy]
            rw [if_pos ⟨rfl, hmn, by omega⟩]
          · rw [if_neg hcond]
            rw [getColorAtPixel_set_ne img newC hw hmw hc2
              (fun hp => hcm ⟨congrArg Prod.snd hp, congrArg Prod.fst hp⟩)]
            rw [if_neg]
            rintro ⟨he1, he2, he3⟩
            rcases Nat.lt_succ_iff_lt_or_eq.mp he3 with hlt | heqm
            · exact hcond ⟨he1, he2, hlt⟩
            · exact hcm ⟨he1, heqm⟩
    · have hred : FloodFill.leftLoop replaced newC tol img (m + 1) y
          = (img, m + 1) := by
        rw [FloodFill.leftLoop, hnb]
        simp [FloodFill.isValidTarget, hvalid]
      refine ⟨img, m + 1, hred, hw, hh, hlen, le_refl _, ?_, ?_, ?_⟩
      · intro c hc1 hc2
        omega
      · right
        refine ⟨by omega, ?_⟩
        simp only [Nat.add_sub_cancel]
        exact (Bool.not_eq_true _).mp hvalid
      · intro c2 y2 _ _
        rw [if_neg]
        rintro ⟨_, h1, h2⟩
        omega

/-- Specification of the right extension loop, mirror image of
`leftLoop_spec`: starting at column `maxX` it returns the largest column
`mx` such that all columns of `(maxX, mx]` match the replaced color, the
column right of `mx` does not match (or is the image edge), and exactly
the cells `(c, y)` with `maxX < c ≤ mx` get painted. -/
lemma rightLoop_spec (replaced newC : ColorRGBA) (tol w h y : Nat)
    (hy : y < h) :
    ∀ (k maxX : Nat) (img : Image), img.width = w → img.height = h →
      img.data.length = w * h → maxX < w → w - maxX ≤ k →
      ∃ imgR mx,
        FloodFill.rightLoop replaced newC tol img maxX y = (imgR, mx)
        ∧ imgR.width = w ∧ imgR.height = h ∧ imgR.data.length = w * h
        ∧ maxX ≤ mx ∧ mx < w
        ∧ (∀ c, maxX < c → c ≤ mx →
            isSameColor replaced (getColorAtPixel img c y) tol = true)
        ∧ (mx + 1 = w ∨ (mx + 1 < w ∧
            isSameColor replaced (getColorAtPixel img (mx + 1) y) tol = false))
        ∧ (∀ c2 y2, c2 < w → y2 < h →
            getColorAtPixel imgR c2 y2 =
              if y2 = y ∧ maxX < c2 ∧ c2 ≤ mx then newC
              else getColorAtPixel img c2 y2) := by
  intro k
  induction k with
  | zero =>
    intro maxX img _ _ _ hmx hk
    exact absurd hk (by omega)
  | succ k ih =>
    intro maxX img hw hh hlen hmx hk
    by_cases hlt : maxX + 1 < w
    · have hnb : FloodFill.getPixelNeighbourRight img maxX y
          = some (maxX + 1, y) := by
        unfold FloodFill.getPixelNeighbourRight
        rw [if_pos (by rw [hw]; omega)]
      by_cases hvalid : isSameColor replaced
          (getColorAtPixel img (maxX + 1) y) tol = true
      · have hred : FloodFill.rightLoop replaced newC tol img maxX y
            = FloodFill.rightLoop replaced newC tol
                (FloodFill.setPixelColor newC (maxX + 1, y) img) (maxX + 1) y := by
          rw [FloodFill.rightLoop, hnb]
          simp [FloodFill.isValidTarget, hvalid, hw, hlt]
        have hdims := setPixelColor_dims newC (maxX + 1, y) img
        obtain ⟨imgR, mx, heq, hwR, hhR, hlenR, hge, hmxw, hspan, hbound, hchar⟩ :=
          ih (maxX + 1) (FloodFill.setPixelColor newC (maxX + 1, y) img)
            (by rw [hdims.1, hw]) (by rw [hdims.2.1, hh])
            (by rw [hdims.2.2, hlen]) hlt (by omega)
        refine ⟨imgR, mx, by rw [hred]; exact heq, hwR, hhR, hlenR, by omega,
          hmxw, ?_, ?_, ?_⟩
        · intro c hc1 hc2
          by_cases hcm : c = maxX + 1
          · subst hcm
            exact hvalid
          · have hmatch1 := hspan c (by omega) hc2
            rw [getColorAtPixel_set_ne img newC hw hlt (by omega)
              (fun hp => hcm (congrArg Prod.fst hp))] at hmatch1
            exact hmatch1
        · rcases hbound with h0 | ⟨hbw, hb⟩
          · exact Or.inl h0
          · right
            refine ⟨hbw, ?_⟩
            rw [getColorAtPixel_set_ne img newC hw hlt (by omega)
              (fun hp => by
                have := congrArg Prod.fst hp
                simp only at this
                omega)] at hb
            exact hb
        · intro c2 y2 hc2 hy2
          rw [hchar c2 y2 hc2 hy2]
          by_cases hcond : y2 = y ∧ maxX + 1 < c2 ∧ c2 ≤ mx
          · rw [if_pos hcond, if_pos ⟨hcond.1, by omega, hcond.2.2⟩]
          · by_cases hcm : y2 = y ∧ c2 = maxX + 1
            · rw [if_neg hcond]
              obtain ⟨hy2y, hc2m⟩ := hcm
              subst hy2y
              subst hc2m
              rw [getColorAtPixel_set_self img newC hw hlen hlt hy]
              rw [if_pos ⟨rfl, by omega, by omega⟩]
            · rw [if_neg hcond]
              rw [getColorAtPixel_set_ne img newC hw hlt hc2
                (fun hp => hcm ⟨congrArg Prod.snd hp, congrArg Prod.fst hp⟩)]
              rw [if_neg]
              rintro ⟨he1, he2, he3⟩
              by_cases hce : c2 = maxX + 1
              · exact hcm ⟨he1, hce⟩
              · exact hcond ⟨he1, by omega, he3⟩
      · have hred : FloodFill.rightLoop replaced newC tol img maxX y
            = (img, maxX) := by
          rw [FloodFill.rightLoop, hnb]
          simp [FloodFill.isValidTarget, hvalid]
        refine ⟨img, maxX, hred, hw, hh, hlen, le_refl _, hmx, ?_, ?_, ?_⟩
        · intro c hc1 hc2
          omega
        · right
          exact ⟨hlt, (Bool.not_eq_true _).mp hvalid⟩
        · intro c2 y2 _ _
          rw [if_neg]
          rintro ⟨_, h1, h2⟩
          omega
    · have hnb : FloodFill.getPixelNeighbourRight img maxX y = none := by
        unfold FloodFill.getPixelNeighbourRight
        rw [if_neg (by rw [hw]; omega)]
      have hred : FloodFill.rightLoop replaced newC tol img maxX y
          = (img, maxX) := by
        rw [FloodFill.rightLoop, hnb]
        simp [FloodFill.isValidTarget]
      refine ⟨img, maxX, hred, hw, hh, hlen, le_refl _, hmx, ?_,
        Or.inl (by omega), ?_⟩
      · intro c hc1 hc2
        omega
      · intro c2 y2 _ _
        rw [if_neg]
        rintro ⟨_, h1, h2⟩
        omega

/-- Specification of `fillLineAt` on a matching seed: it returns the
maximal contiguous span `[mn, mx]` of columns of row `y` that match the
replaced color around the seed column `x` (matching measured in the input
image), paints exactly that span to the new color in one pass, and leaves
every other pixel unchanged. -/
lemma fillLineAt_spec (replaced newC : ColorRGBA) (tol w h x y : Nat)
    (img : Image) (hw : img.width = w) (hh : img.height = h)
    (hlen : img.data.length = w * h) (hx : x < w) (hy : y < h)
    (hmatch : isSameColor replaced (getColorAtPixel img x y) tol = true) :
    ∃ imgR mn mx,
      FloodFill.fillLineAt replaced newC tol img x y = (imgR, some (mn, mx))
      ∧ imgR.width = w ∧ imgR.height = h ∧ imgR.data.length = w * h
      ∧ mn ≤ x ∧ x ≤ mx ∧ mx < w
      ∧ (∀ c, mn ≤ c → c ≤ mx →
          isSameColor replaced (getColorAtPixel img c y) tol = true)
      ∧ (mn = 0 ∨ (1 ≤ mn ∧
          isSameColor replaced (getColorAtPixel img (mn - 1) y) tol = false))
      ∧ (mx + 1 = w ∨ (mx + 1 < w ∧
          isSameColor replaced (getColorAtPixel img (mx + 1) y) tol = false))
      ∧ (∀ c2 y2, c2 < w → y2 < h →
          getColorAtPixel imgR c2 y2 =
            if y2 = y ∧ mn ≤ c2 ∧ c2 ≤ mx then newC
            else getColorAtPixel img c2 y2) := by
  have hvalid : FloodFill.isValidTarget replaced tol img (some (x, y)) = true :=
    hmatch
  have hdims1 := setPixelColor_dims newC (x, y) img
  obtain ⟨img2, mn, heqL, hw2, hh2, hlen2, hmnx, hspanL, hboundL, hcharL⟩ :=
    leftLoop_spec replaced newC tol w h y hy x
      (FloodFill.setPixelColor newC (x, y) img)
      (by rw [hdims1.1, hw]) (by rw [hdims1.2.1, hh])
      (by rw [hdims1.2.2, hlen]) (by omega)
  obtain ⟨img3, mx, heqR, hw3, hh3, hlen3, hxmx, hmxw, hspanR, hboundR, hcharR⟩ :=
    rightLoop_spec replaced newC tol w h y hy w x img2 hw2 hh2 hlen2 hx
      (by omega)
  refine ⟨img3, mn, mx, ?_, hw3, hh3, hlen3, hmnx, hxmx, hmxw, ?_, ?_, ?_, ?_⟩
  · simp only [FloodFill.fillLineAt, hvalid, if_true, heqL, heqR]
  · intro c hc1 hc2
    rcases Nat.lt_trichotomy c x with hlt | heq | hgt
    · have hm1 := hspanL c hc1 hlt
      rw [getColorAtPixel_set_ne img newC hw hx (by omega)
        (fun hp => by
          have hcc := congrArg Prod.fst hp
          simp only at hcc
          omega)] at hm1
      exact hm1
    · subst heq
      exact hmatch
    · have hm1 := hspanR c hgt hc2
      rw [hcharL c y (by omega) hy] at hm1
      rw [if_neg (by rintro ⟨_, _, hcx⟩; omega)] at hm1
      rw [getColorAtPixel_set_ne img newC hw hx (by omega)
        (fun hp => by
          have hcc := congrArg Prod.fst hp
          simp only at hcc
          omega)] at hm1
      exact hm1
  · rcases hboundL with h0 | ⟨hge, hb⟩
    · exact Or.inl h0
    · right
      refine ⟨hge, ?_⟩
      rw [getColorAtPixel_set_ne img newC hw hx (by omega)
        (fun hp => by
          have hcc := congrArg Prod.fst hp
          simp only at hcc
          omega)] at hb
      exact hb
  · rcases hboundR with h0 | ⟨hbw, hb⟩
    · exact Or.inl h0
    · right
      refine ⟨hbw, ?_⟩
      rw [hcharL (mx + 1) y (by omega) hy] at hb
      rw [if_neg (by rintro ⟨_, _, hcx⟩; omega)] at hb
      rw [getColorAtPixel_set_ne img newC hw hx (by omega)
        (fun hp => by
          have hcc := congrArg Prod.fst hp
          simp only at hcc
          omega)] at hb
      exact hb
  · intro c2 y2 hc2 hy2
    rw [hcharR c2 y2 hc2 hy2, hcharL c2 y2 hc2 hy2]
    by_cases hR : y2 = y ∧ x < c2 ∧ c2 ≤ mx
    · rw [if_pos hR, if_pos ⟨hR.1, by omega, hR.2.2⟩]
    · rw [if_neg hR]
      by_cases hL : y2 = y ∧ mn ≤ c2 ∧ c2 < x
      · rw [if_pos hL, if_pos ⟨hL.1, hL.2.1, by omega⟩]
      · rw [if_neg hL]
        by_cases hS : y2 = y ∧ c2 = x
        · obtain ⟨h1, h2⟩ := hS
          subst h1
          subst h2
          rw [getColorAtPixel_set_self img newC hw hlen hx hy]
          rw [if_pos ⟨rfl, hmnx, hxmx⟩]
        · rw [getColorAtPixel_set_ne img newC hw hx hc2
            (fun hp => hS ⟨congrArg Prod.snd hp, congrArg Prod.fst hp⟩)]
          rw [if_neg]
          rintro ⟨he1, he2, he3⟩
          rcases Nat.lt_trichotomy c2 x with hlt | heq | hgt
          · exact hL ⟨he1, he2, hlt⟩
          · exact hS ⟨he1, heq⟩
          · exact hR ⟨he1, hgt, he3⟩

/-- One iteration of the per-line loop on a column where `fillLineAt`
finds a span: the span rows are enqueued (per the parent-direction rules)
and the loop jumps to the column after the span. -/
lemma lineLoop_step_some (hgt : Nat) (replaced newC : ColorRGBA)
    (tol startX stop y : Nat) (parentY : Int) (fuel : Nat) (img : Image)
    (queue : List FloodFill.Line) (currX : Nat) (imgR : Image) (mn mx : Nat)
    (hcur : currX ≤ stop)
    (hfla : FloodFill.fillLineAt replaced newC tol img currX y
      = (imgR, some (mn, mx))) :
    FloodFill.lineLoop hgt replaced newC tol startX stop y parentY (fuel + 1)
        img queue currX
      = FloodFill.lineLoop hgt replaced newC tol startX stop y parentY fuel
          imgR
          (if startX ≤ mn ∧ mx ≤ stop ∧ parentY ≠ -1 then
            (if parentY > (y : Int) ∧ 0 < y then
              FloodFill.Line.mk mn mx (y - 1) (y : Int) ::
                (if parentY < (y : Int) ∧ y + 1 < hgt then
                  FloodFill.Line.mk mn mx (y + 1) (y : Int) :: queue
                else queue)
            else
              (if parentY < (y : Int) ∧ y + 1 < hgt then
                FloodFill.Line.mk mn mx (y + 1) (y : Int) :: queue
              else queue))
          else
            (if y + 1 < hgt then
              FloodFill.Line.mk mn mx (y + 1) (y : Int) ::
                (if 0 < y then
                  FloodFill.Line.mk mn mx (y - 1) (y : Int) :: queue
                else queue)
            else
              (if 0 < y then
                FloodFill.Line.mk mn mx (y - 1) (y : Int) :: queue
              else queue)))
          (mx + 1) := by
  rw [FloodFill.lineLoop, if_pos hcur, hfla]

/-- The per-line loop exits once the column passes the line end. -/
lemma lineLoop_stop (hgt : Nat) (replaced newC : ColorRGBA)
    (tol startX stop y : Nat) (parentY : Int) (fuel : Nat) (img : Image)
    (queue : List FloodFill.Line) (currX : Nat) (hcur : ¬(currX ≤ stop)) :
    FloodFill.lineLoop hgt replaced newC tol startX stop y parentY (fuel + 1)
        img queue currX = (img, queue) := by
  rw [FloodFill.lineLoop, if_neg hcur]

/-- C6.  When the seed pixel color does not match the new color within
the tolerance, `FloodFill.fill` proceeds as a span fill: `fillLineAt`
extends left and right from the seed column while pixels match the
original seed color within tolerance, that maximal contiguous span
`[mn, mx]` is painted in one pass (and nothing else is painted), and the
first queue round then enqueues the rows immediately above and below the
span (those that exist: rows outside `[0, height)` are never enqueued)
carrying the span bounds, for the same treatment by the remaining queue
rounds. -/
theorem C6_span_fill_paints_maximal_span_and_enqueues_rows
    (w h x y tol fuel : Nat) (img : Image) (newC : ColorRGBA)
    (hw : img.width = w) (hh : img.height = h)
    (hlen : img.data.length = w * h) (hx : x < w) (hy : y < h)
    (hseed : isSameColor (getColorAtPixel img x y) newC tol = false) :
    ∃ imgR mn mx,
      FloodFill.fillLineAt (getColorAtPixel img x y) newC tol img x y
          = (imgR, some (mn, mx))
      ∧ mn ≤ x ∧ x ≤ mx ∧ mx < w
      ∧ (∀ c, mn ≤ c → c ≤ mx →
          isSameColor (getColorAtPixel img x y) (getColorAtPixel img c y) tol
            = true)
      ∧ (mn = 0 ∨ (1 ≤ mn ∧
          isSameColor (getColorAtPixel img x y)
            (getColorAtPixel img (mn - 1) y) tol = false))
      ∧ (mx + 1 = w ∨ (mx + 1 < w ∧
          isSameColor (getColorAtPixel img x y)
            (getColorAtPixel img (mx + 1) y) tol = false))
      ∧ (∀ c2 y2, c2 < w → y2 < h →
          getColorAtPixel imgR c2 y2 =
            if y2 = y ∧ mn ≤ c2 ∧ c2 ≤ mx then newC
            else getColorAtPixel img c2 y2)
      ∧ FloodFill.fill (fuel + 1) newC x y tol img
          = FloodFill.fillQueue h (getColorAtPixel img x y) newC tol fuel imgR
              (if y + 1 < h then
                FloodFill.Line.mk mn mx (y + 1) (y : Int) ::
                  (if 0 < y then [FloodFill.Line.mk mn mx (y - 1) (y : Int)]
                  else [])
              else
                (if 0 < y then [FloodFill.Line.mk mn mx (y - 1) (y : Int)]
                else [])) := by
  obtain ⟨imgR, mn, mx, heqF, hwR, hhR, hlenR, hmn, hxm, hmxw, hspan, hbl,
    hbr, hchar⟩ :=
    fillLineAt_spec (getColorAtPixel img x y) newC tol w h x y img hw hh hlen
      hx hy (isSameColor_refl _ _)
  refine ⟨imgR, mn, mx, heqF, hmn, hxm, hmxw, hspan, hbl, hbr, hchar, ?_⟩
  unfold FloodFill.fill
  rw [if_neg (by rw [hseed]; exact Bool.false_ne_true)]
  rw [hh, FloodFill.fillQueue]
  have h2 : x + 2 - x = 2 := by omega
  have hstep := lineLoop_step_some h (getColorAtPixel img x y) newC tol x x y
    (-1) 1 img [] x imgR mn mx (le_refl x) heqF
  have hstop := lineLoop_stop h (getColorAtPixel img x y) newC tol x x y
    (-1) 0 imgR
    (if x ≤ mn ∧ mx ≤ x ∧ (-1 : Int) ≠ -1 then
      (if (-1 : Int) > (y : Int) ∧ 0 < y then
        FloodFill.Line.mk mn mx (y - 1) (y : Int) ::
          (if (-1 : Int) < (y : Int) ∧ y + 1 < h then
            FloodFill.Line.mk mn mx (y + 1) (y : Int) :: []
          else [])
      else
        (if (-1 : Int) < (y : Int) ∧ y + 1 < h then
          FloodFill.Line.mk mn mx (y + 1) (y : Int) :: []
        else []))
    else
      (if y + 1 < h then
        FloodFill.Line.mk mn mx (y + 1) (y : Int) ::
          (if 0 < y then FloodFill.Line.mk mn mx (y - 1) (y : Int) :: []
          else [])
      else
        (if 0 < y then FloodFill.Line.mk mn mx (y - 1) (y : Int) :: []
        else [])))
    (mx + 1) (by omega)
  simp only [h2]
  rw [hstep, hstop]
  congr 1
  rw [if_neg (by rintro ⟨_, _, hcc⟩; exact hcc rfl)]

/-- C6 witness: a concrete run on the 3 by 2 image with top row
`[A, A, B]` and bottom row `[A, A, A]` (`A` grey, `B` dark), seed
`(0, 0)`, tolerance 0: the span `[0, 1]` of the top row is painted and
the row below is enqueued with those bounds (no row above exists). -/
theorem C6_span_fill_paints_maximal_span_and_enqueues_rows_witness :
    ∃ imgR mn mx,
      FloodFill.fillLineAt
          (getColorAtPixel ⟨3, 2, [⟨10, 10, 10, 255⟩, ⟨10, 10, 10, 255⟩,
            ⟨99, 0, 0, 255⟩, ⟨10, 10, 10, 255⟩, ⟨10, 10, 10, 255⟩,
            ⟨10, 10, 10, 255⟩]⟩ 0 0)
          ⟨200, 0, 0, 255⟩ 0
          ⟨3, 2, [⟨10, 10, 10, 255⟩, ⟨10, 10, 10, 255⟩, ⟨99, 0, 0, 255⟩,
            ⟨10, 10, 10, 255⟩, ⟨10, 10, 10, 255⟩, ⟨10, 10, 10, 255⟩]⟩ 0 0
          = (imgR, some (mn, mx))
      ∧ mn ≤ 0 ∧ 0 ≤ mx ∧ mx < 3
      ∧ (∀ c, mn ≤ c → c ≤ mx →
          isSameColor
            (getColorAtPixel ⟨3, 2, [⟨10, 10, 10, 255⟩, ⟨10, 10, 10, 255⟩,
              ⟨99, 0, 0, 255⟩, ⟨10, 10, 10, 255⟩, ⟨10, 10, 10, 255⟩,
              ⟨10, 10, 10, 255⟩]⟩ 0 0)
            (getColorAtPixel ⟨3, 2, [⟨10, 10, 10, 255⟩, ⟨10, 10, 10, 255⟩,
              ⟨99, 0, 0, 255⟩, ⟨10, 10, 10, 255⟩, ⟨10, 10, 10, 255⟩,
              ⟨10, 10, 10, 255⟩]⟩ c 0) 0 = true)
      ∧ (mn = 0 ∨ (1 ≤ mn ∧
          isSameColor
            (getColorAtPixel ⟨3, 2, [⟨10, 10, 10, 255⟩, ⟨10, 10, 10, 255⟩,
              ⟨99, 0, 0, 255⟩, ⟨10, 10, 10, 255⟩, ⟨10, 10, 10, 255⟩,
              ⟨10, 10, 10, 255⟩]⟩ 0 0)
            (getColorAtPixel ⟨3, 2, [⟨10, 10, 10, 255⟩, ⟨10, 10, 10, 255⟩,
              ⟨99, 0, 0, 255⟩, ⟨10, 10, 10, 255⟩, ⟨10, 10, 10, 255⟩,
              ⟨10, 10, 10, 255⟩]⟩ (mn - 1) 0) 0 = false))
      ∧ (mx + 1 = 3 ∨ (mx + 1 < 3 ∧
          isSameColor
            (getColorAtPixel ⟨3, 2, [⟨10, 10, 10, 255⟩, ⟨10, 10, 10, 255⟩,
              ⟨99, 0, 0, 255⟩, ⟨10, 10, 10, 255⟩, ⟨10, 10, 10, 255⟩,
              ⟨10, 10, 10, 255⟩]⟩ 0 0)
            (getColorAtPixel ⟨3, 2, [⟨10, 10, 10, 255⟩, ⟨10, 10, 10, 255⟩,
              ⟨99, 0, 0, 255⟩, ⟨10, 10, 10, 255⟩, ⟨10, 10, 10, 255⟩,
              ⟨10, 10, 10, 255⟩]⟩ (mx + 1) 0) 0 = false))
      ∧ (∀ c2 y2, c2 < 3 → y2 < 2 →
          getColorAtPixel imgR c2 y2 =
            if y2 = 0 ∧ mn ≤ c2 ∧ c2 ≤ mx then ⟨200, 0, 0, 255⟩
            else getColorAtPixel ⟨3, 2, [⟨10, 10, 10, 255⟩,
              ⟨10, 10, 10, 255⟩, ⟨99, 0, 0, 255⟩, ⟨10, 10, 10, 255⟩,
              ⟨10, 10, 10, 255⟩, ⟨10, 10, 10, 255⟩]⟩ c2 y2)
      ∧ FloodFill.fill (4 + 1) ⟨200, 0, 0, 255⟩ 0 0 0
            ⟨3, 2, [⟨10, 10, 10, 255⟩, ⟨10, 10, 10, 255⟩, ⟨99, 0, 0, 255⟩,
              ⟨10, 10, 10, 255⟩, ⟨10, 10, 10, 255⟩, ⟨10, 10, 10, 255⟩]⟩
          = FloodFill.fillQueue 2
              (getColorAtPixel ⟨3, 2, [⟨10, 10, 10, 255⟩, ⟨10, 10, 10, 255⟩,
                ⟨99, 0, 0, 255⟩, ⟨10, 10, 10, 255⟩, ⟨10, 10, 10, 255⟩,
                ⟨10, 10, 10, 255⟩]⟩ 0 0)
              ⟨200, 0, 0, 255⟩ 0 4 imgR
              (if 0 + 1 < 2 then
                FloodFill.Line.mk mn mx (0 + 1) ((0 : Nat) : Int) ::
                  (if 0 < 0 then
                    [FloodFill.Line.mk mn mx (0 - 1) ((0 : Nat) : Int)]
                  else [])
              else
                (if 0 < 0 then
                  [FloodFill.Line.mk mn mx (0 - 1) ((0 : Nat) : Int)]
                else [])) :=
  C6_span_fill_paints_maximal_span_and_enqueues_rows 3 2 0 0 0 4
    ⟨3, 2, [⟨10, 10, 10, 255⟩, ⟨10, 10, 10, 255⟩, ⟨99, 0, 0, 255⟩,
      ⟨10, 10, 10, 255⟩, ⟨10, 10, 10, 255⟩, ⟨10, 10, 10, 255⟩]⟩
    ⟨200, 0, 0, 255⟩ rfl rfl (by decide) (by decide) (by decide) (by decide)

/-- C7.  Filling with an indistinguishable color is a no-op: when the
color distance between the seed pixel color and the new color is within
the tolerance, `FloodFill.fill` returns without touching the buffer
(first conjunct); a color always matches itself at any tolerance, so
filling a region already colored `C` with `C` is a no-op (second
conjunct); and the `floodFill` of `src/index.js` likewise returns the
buffer unchanged when the seed already holds the fill color (third
conjunct). -/
theorem C7_indistinguishable_fill_is_noop :
    (∀ (fuel : Nat) (img : Image) (newC : ColorRGBA) (x y tol : Nat),
        isSameColor (getColorAtPixel img x y) newC tol = true →
        FloodFill.fill fuel newC x y tol img = img)
    ∧ (∀ (c : ColorRGBA) (tol : Nat), isSameColor c c tol = true)
    ∧ (∀ (fuel w h : Nat) (data : List Nat) (x y : Int) (fill : Nat),
        getPixel w h data x y = (fill : Int) →
        floodFill fuel w h data x y fill = data) := by
  refine ⟨?_, isSameColor_refl, ?_⟩
  · intro fuel img newC x y tol hsame
    unfold FloodFill.fill
    rw [if_pos hsame]
  · intro fuel w h data x y fill hfill
    unfold floodFill
    rw [if_neg (by rw [hfill]; exact fun hne => hne rfl)]

/-- C7 witness: filling a 1 by 1 buffer already colored `C` with `C`
(any representative tolerance) leaves it unchanged, for both fill
implementations. -/
theorem C7_indistinguishable_fill_is_noop_witness :
    FloodFill.fill 5 ⟨1, 2, 3, 4⟩ 0 0 7 ⟨1, 1, [⟨1, 2, 3, 4⟩]⟩
        = ⟨1, 1, [⟨1, 2, 3, 4⟩]⟩
    ∧ floodFill 5 1 1 [9] 0 0 9 = [9] :=
  ⟨C7_indistinguishable_fill_is_noop.1 5 ⟨1, 1, [⟨1, 2, 3, 4⟩]⟩ ⟨1, 2, 3, 4⟩
      0 0 7 (by decide),
    C7_indistinguishable_fill_is_noop.2.2 5 1 1 [9] 0 0 9 (by decide)⟩

/-! ## Gesture state machine lemmas and claims -/

/-- C2.  The claim says every handler returns a valid GestureState for
the host to store, and in particular a wheel event in an active gesture
state is suppressed with the machine remaining in that state.  The
drawing/panning/pinching states bind `SUPPRESS_SCROLL`, an arrow
function whose returned `this` is the module-scope `this` - `undefined`
(`.bind` cannot rebind an arrow function) - so the wheel handler of
every active state returns `undefined` (`none`), not a state: the host
then stores `undefined` as `interactionSM` and the machine is lost.
Proved for all events, contexts and payloads; the final conjunct records
that `none` is not any state value. -/
theorem C2_wheel_in_active_states_returns_undefined_not_the_state :
    ∀ (e : Event) (cd : Ctx) (pp : PanPayload) (wp : WFP) (sp : SPPayload)
      (dp : DrawPayload),
      handleMouseWheel (GestureState.pan pp) e cd = (none, cd)
      ∧ handleMouseWheel (GestureState.waitForPinch wp) e cd = (none, cd)
      ∧ handleMouseWheel (GestureState.scaleOrPan sp) e cd = (none, cd)
      ∧ handleMouseWheel (GestureState.touchPan sp) e cd = (none, cd)
      ∧ handleMouseWheel (GestureState.touchScale sp) e cd = (none, cd)
      ∧ handleMouseWheel (GestureState.drawing dp) e cd = (none, cd)
      ∧ ∀ st : GestureState, (none : Option GestureState) ≠ some st := by
  intro e cd pp wp sp dp
  exact ⟨rfl, rfl, rfl, rfl, rfl, rfl, fun st h => Option.noConfusion h⟩

/-- The drawing move handler does not distinguish a synthetic replay
event from a live touch event at the same client point. -/
lemma drawMove_synth_live (p : CPoint) (cd : Ctx) (d : DrawPayload) :
    DrawingState.handleDrawMove (SyntheticEvent p) cd false d
      = DrawingState.handleDrawMove (liveTouchEvent p) cd false d := rfl

/-- The drawing start handler does not distinguish a synthetic replay
event from a live touch event at the same client point. -/
lemma drawStart_synth_live (p : CPoint) (cd : Ctx) (d : DrawPayload) :
    DrawingState.handleDrawStart (SyntheticEvent p) cd false d
      = DrawingState.handleDrawStart (liveTouchEvent p) cd false d := rfl

/-- The replay tail loop and the live delivery tail loop coincide. -/
lemma issueGo_eq_deliverLiveGo :
    ∀ (pts : List CPoint) (d : DrawPayload) (cd : Ctx),
      issueGo false d cd pts = deliverLiveGo d cd pts := by
  intro pts
  induction pts with
  | nil => intro d cd; rfl
  | cons p rest ih =>
    intro d cd
    rw [issueGo, deliverLiveGo]
    simp only [if_neg Bool.false_ne_true]
    rw [drawMove_synth_live]
    exact ih _ _

/-- C5.  Replaying the buffered points when `WaitForPinch` gives up
(`issueDeferredPoints`: first point through a synthetic draw-start on a
fresh drawing state, each subsequent point through a synthetic
draw-move, in buffer order) produces exactly the same machine state and
host context - in particular the same in-progress stroke point list - as
delivering those same points live to the drawing state
(spec-modelled `deliverLive`). -/
theorem C5_replay_equals_live_delivery :
    ∀ (pts : List CPoint) (cd : Ctx),
      issueDeferredPoints pts cd = deliverLive pts cd
      ∧ (issueDeferredPoints pts cd).2.points = (deliverLive pts cd).2.points := by
  intro pts cd
  have hmain : issueDeferredPoints pts cd = deliverLive pts cd := by
    match pts with
    | [] => rfl
    | p :: rest =>
      unfold issueDeferredPoints deliverLive
      rw [issueGo]
      simp only [eq_self_iff_true, if_true]
      rw [drawStart_synth_live, issueGo_eq_deliverLiveGo]
  exact ⟨hmain, by rw [hmain]⟩

/-- A first single-touch move in `WaitForPinch` within the pinch timeout
records the point as the slop origin and stays (its own displacement is
zero). -/
lemma wfpMove_stay_first (sq : Rat → Rat) (p : CPoint) (t t0 : Int)
    (buf : List CPoint) (cd : Ctx) (ht : t - t0 < 250) :
    handleDrawMove sq
        (GestureState.waitForPinch
          { startClientPoint := none, startTimestamp := t0,
            deferredPoints := buf }) (mkTouchMove p t) cd
      = (GestureState.waitForPinch
          { startClientPoint := some p, startTimestamp := t0,
            deferredPoints := buf ++ [p] }, cd) := by
  unfold handleDrawMove WaitForPinchState.handleDrawMove
  simp only [mkTouchMove, List.length_cons, List.length_nil,
    clientPointFromEvent]
  rw [if_neg (by norm_num)]
  rw [if_pos ht]
  have h10 : (0 : Rat) < 10 := by norm_num
  simp [manhattan, h10]

/-- A later single-touch move in `WaitForPinch` within the timeout and
below the slop threshold keeps waiting and buffers the point. -/
lemma wfpMove_stay_next (sq : Rat → Rat) (p s : CPoint) (t t0 : Int)
    (buf : List CPoint) (cd : Ctx) (ht : t - t0 < 250)
    (hd : manhattan p s < 10) :
    handleDrawMove sq
        (GestureState.waitForPinch
          { startClientPoint := some s, startTimestamp := t0,
            deferredPoints := buf }) (mkTouchMove p t) cd
      = (GestureState.waitForPinch
          { startClientPoint := some s, startTimestamp := t0,
            deferredPoints := buf ++ [p] }, cd) := by
  unfold handleDrawMove WaitForPinchState.handleDrawMove
  simp only [mkTouchMove, List.length_cons, List.length_nil,
    clientPointFromEvent]
  rw [if_neg (by norm_num)]
  rw [if_pos ht]
  simp [hd]

/-- A single-touch move that exceeds the timeout or the slop threshold
makes `WaitForPinch` give up and replay the whole buffer (the current
point included). -/
lemma wfpMove_giveup (sq : Rat → Rat) (p : CPoint) (sc : Option CPoint)
    (t t0 : Int) (buf : List CPoint) (cd : Ctx)
    (h : 250 ≤ t - t0 ∨ (∃ s, sc = some s ∧ 10 ≤ manhattan p s)) :
    handleDrawMove sq
        (GestureState.waitForPinch
          { startClientPoint := sc, startTimestamp := t0,
            deferredPoints := buf }) (mkTouchMove p t) cd
      = issueDeferredPoints (buf ++ [p]) cd := by
  unfold handleDrawMove WaitForPinchState.handleDrawMove
  simp only [mkTouchMove, List.length_cons, List.length_nil,
    clientPointFromEvent]
  rw [if_neg (by norm_num)]
  by_cases htime : t - t0 < 250
  · rw [if_pos htime]
    rcases h with hta | ⟨s, hsc, hman⟩
    · omega
    · subst hsc
      have hnlt : ¬ manhattan p s < 10 := not_lt.mpr hman
      simp [hnlt]
  · rw [if_neg htime]

/-- The host move fold splits over list concatenation. -/
lemma runMoves_append (sq : Rat → Rat) :
    ∀ (l1 l2 : List Event) (sc : GestureState × Ctx),
      runMoves sq sc (l1 ++ l2) = runMoves sq (runMoves sq sc l1) l2 := by
  intro l1
  induction l1 with
  | nil =>
    intro l2 sc
    obtain ⟨st, cd⟩ := sc
    rfl
  | cons e rest ih =>
    intro l2 sc
    obtain ⟨st, cd⟩ := sc
    rw [List.cons_append, runMoves, runMoves]
    exact ih l2 _

/-- While every move stays within the timeout and the slop from the
recorded first point, the machine keeps waiting and the buffer grows in
order. -/
lemma runMoves_stay (sq : Rat → Rat) (p1 : CPoint) (t0 : Int) (cd : Ctx) :
    ∀ (evs : List (CPoint × Int)) (buf : List CPoint),
      (∀ q ∈ evs, q.2 - t0 < 250 ∧ manhattan q.1 p1 < 10) →
      runMoves sq
          (GestureState.waitForPinch
            { startClientPoint := some p1, startTimestamp := t0,
              deferredPoints := buf }, cd)
          (evs.map (fun q => mkTouchMove q.1 q.2))
        = (GestureState.waitForPinch
            { startClientPoint := some p1, startTimestamp := t0,
              deferredPoints := buf ++ evs.map Prod.fst }, cd) := by
  intro evs
  induction evs with
  | nil =>
    intro buf _
    simp [runMoves]
  | cons q rest ih =>
    intro buf hall
    simp only [List.map_cons]
    rw [runMoves]
    rw [wfpMove_stay_next sq q.1 p1 q.2 t0 buf cd (hall q (by simp)).1
      (hall q (by simp)).2]
    rw [ih (buf ++ [q.1]) (fun r hr => hall r (by simp [hr]))]
    simp

/-- C4.  From a fresh `WaitForPinch` state entered at time `t0`: for any
sequence of single-touch moves whose timestamps stay within 250 ms of
`t0` and whose Manhattan displacement from the first recorded point
stays strictly below the slop threshold 10, the machine remains in
`WaitForPinch` with all points buffered in order (first conjunct); and
as soon as a move reaches 250 ms elapsed or Manhattan displacement 10,
the machine replays the whole buffer (that move included, in order) into
a fresh drawing state and ends up in `Drawing` (second conjunct). -/
theorem C4_waitForPinch_slop_and_timeout (sq : Rat → Rat) (t0 : Int)
    (p1 : CPoint) (t1 : Int) (rest : List (CPoint × Int)) (cd : Ctx)
    (h1 : t1 - t0 < 250)
    (hrest : ∀ q ∈ rest, q.2 - t0 < 250 ∧ manhattan q.1 p1 < 10) :
    runMoves sq
        (GestureState.waitForPinch
          { startClientPoint := none, startTimestamp := t0,
            deferredPoints := [] }, cd)
        (((p1, t1) :: rest).map (fun q => mkTouchMove q.1 q.2))
      = (GestureState.waitForPinch
          { startClientPoint := some p1, startTimestamp := t0,
            deferredPoints := p1 :: rest.map Prod.fst }, cd)
    ∧ ∀ (p : CPoint) (t : Int),
        250 ≤ t - t0 ∨ 10 ≤ manhattan p p1 →
        runMoves sq
            (GestureState.waitForPinch
              { startClientPoint := none, startTimestamp := t0,
                deferredPoints := [] }, cd)
            ((((p1, t1) :: rest).map (fun q => mkTouchMove q.1 q.2))
              ++ [mkTouchMove p t])
          = issueDeferredPoints ((p1 :: rest.map Prod.fst) ++ [p]) cd
        ∧ ∃ (d : DrawPayload) (cd2 : Ctx),
            issueDeferredPoints ((p1 :: rest.map Prod.fst) ++ [p]) cd
              = (GestureState.drawing d, cd2) := by
  have hpart1 : runMoves sq
      (GestureState.waitForPinch
        { startClientPoint := none, startTimestamp := t0,
          deferredPoints := [] }, cd)
      (((p1, t1) :: rest).map (fun q => mkTouchMove q.1 q.2))
    = (GestureState.waitForPinch
        { startClientPoint := some p1, startTimestamp := t0,
          deferredPoints := p1 :: rest.map Prod.fst }, cd) := by
    simp only [List.map_cons]
    rw [runMoves]
    rw [wfpMove_stay_first sq p1 t1 t0 [] cd h1]
    simp only [List.nil_append]
    rw [runMoves_stay sq p1 t0 cd rest [p1] hrest]
    simp
  refine ⟨hpart1, ?_⟩
  intro p t hpt
  constructor
  · rw [runMoves_append, hpart1, runMoves]
    rw [wfpMove_giveup sq p (some p1) t t0 (p1 :: rest.map Prod.fst) cd
      (by
        rcases hpt with hta | hman
        · exact Or.inl hta
        · exact Or.inr ⟨p1, rfl, hman⟩)]
    rfl
  · exact ⟨_, _, rfl⟩

/-- Witness for C4 at a concrete run: first touch at (0,0) at 10 ms,
a second at (3,4) at 50 ms (Manhattan 7 < 10) stay waiting with both
points buffered; a third at (10,0) at 60 ms (Manhattan 10) makes the
machine replay all three. -/
theorem C4_waitForPinch_slop_and_timeout_witness :
    runMoves sqDict
        (GestureState.waitForPinch
          { startClientPoint := none, startTimestamp := 0,
            deferredPoints := [] }, baseCtx)
        [mkTouchMove { clientX := 0, clientY := 0 } 10,
          mkTouchMove { clientX := 3, clientY := 4 } 50]
      = (GestureState.waitForPinch
          { startClientPoint := some { clientX := 0, clientY := 0 },
            startTimestamp := 0,
            deferredPoints := [{ clientX := 0, clientY := 0 },
              { clientX := 3, clientY := 4 }] }, baseCtx)
    ∧ runMoves sqDict
        (GestureState.waitForPinch
          { startClientPoint := none, startTimestamp := 0,
            deferredPoints := [] }, baseCtx)
        ([mkTouchMove { clientX := 0, clientY := 0 } 10,
          mkTouchMove { clientX := 3, clientY := 4 } 50]
          ++ [mkTouchMove { clientX := 10, clientY := 0 } 60])
      = issueDeferredPoints
          [{ clientX := 0, clientY := 0 }, { clientX := 3, clientY := 4 },
            { clientX := 10, clientY := 0 }] baseCtx := by
  have h := C4_waitForPinch_slop_and_timeout sqDict 0
    { clientX := 0, clientY := 0 } 10
    [({ clientX := 3, clientY := 4 }, 50)] baseCtx (by decide)
    (by
      intro q hq
      simp only [List.mem_singleton] at hq
      subst hq
      exact ⟨by decide, by norm_num [manhattan]⟩)
  exact ⟨h.1, (h.2 { clientX := 10, clientY := 0 } 60
    (Or.inr (by norm_num [manhattan]))).1⟩

/-- Scaling at a client anchor keeps the document point under the anchor
fixed whenever the clamped new scale is nonzero. -/
lemma scaleAtClientPoint_anchor (v : View) (lo hi dS : Rat) (a : CPoint)
    (hne : clampQ (v.scale + dS) lo hi ≠ 0) :
    clientPointToViewPoint (scaleAtClientPoint v lo hi dS a) a
      = clientPointToViewPoint v a := by
  simp only [scaleAtClientPoint, clientPointToViewPoint, VPoint.mk.injEq]
  constructor
  · rw [sub_sub_cancel]
    exact mul_div_cancel_right₀ _ hne
  · rw [sub_sub_cancel]
    exact mul_div_cancel_right₀ _ hne

/-- C8.  In `ScaleOrPan`, a two-touch move whose inter-touch distance
changed from the baseline by at least the slop threshold 10 hands over
to `TouchScale` (this criterion is checked before the pan criterion),
and the resulting view scale is
`scaleStart * (currentDistance / baselineDistance)` (when that target
lies within the zoom extents), anchored at the touch centroid: the
document point under the centroid is unchanged. -/
theorem C8_scaleOrPan_distance_slop_enters_touchScale (sq : Rat → Rat)
    (p : SPPayload) (e : Event) (cd : Ctx)
    (h2 : 2 ≤ e.touches.length)
    (hd : 10 ≤ |(getTouchMetrics sq e).distance - p.start.distance|)
    (hlo : cd.props.zoomMin ≤
      p.scaleStart * ((getTouchMetrics sq e).distance / p.start.distance))
    (hhi : p.scaleStart * ((getTouchMetrics sq e).distance / p.start.distance)
      ≤ cd.props.zoomMax)
    (hs0 : p.scaleStart * ((getTouchMetrics sq e).distance / p.start.distance)
      ≠ 0) :
    (ScaleOrPanState.handleDrawMove sq p e cd).1 = GestureState.touchScale p
    ∧ (ScaleOrPanState.handleDrawMove sq p e cd).2.view.scale
        = p.scaleStart * ((getTouchMetrics sq e).distance / p.start.distance)
    ∧ clientPointToViewPoint (ScaleOrPanState.handleDrawMove sq p e cd).2.view
        (getTouchMetrics sq e).centroid
      = clientPointToViewPoint cd.view (getTouchMetrics sq e).centroid := by
  have hred : ScaleOrPanState.handleDrawMove sq p e cd
      = (GestureState.touchScale p,
        { cd with view := (scaleAtClientPoint cd.view cd.props.zoomMin
            cd.props.zoomMax
            (p.scaleStart
              * ((getTouchMetrics sq e).distance / p.start.distance)
              - cd.view.scale)
            (getTouchMetrics sq e).centroid) }) := by
    unfold ScaleOrPanState.handleDrawMove TouchScaleState.handleDrawMove
    rw [if_neg (not_lt.mpr h2), if_pos hd, if_neg (not_lt.mpr h2)]
  have hsum : cd.view.scale
      + (p.scaleStart * ((getTouchMetrics sq e).distance / p.start.distance)
        - cd.view.scale)
      = p.scaleStart * ((getTouchMetrics sq e).distance / p.start.distance) := by
    ring
  have hclamp : clampQ
      (cd.view.scale
        + (p.scaleStart * ((getTouchMetrics sq e).distance / p.start.distance)
          - cd.view.scale))
      cd.props.zoomMin cd.props.zoomMax
      = p.scaleStart * ((getTouchMetrics sq e).distance / p.start.distance) := by
    rw [hsum]
    unfold clampQ
    rw [min_eq_left hhi, max_eq_right hlo]
  refine ⟨by rw [hred], ?_, ?_⟩
  · rw [hred]
    show (scaleAtClientPoint cd.view cd.props.zoomMin cd.props.zoomMax
      (p.scaleStart * ((getTouchMetrics sq e).distance / p.start.distance)
        - cd.view.scale) (getTouchMetrics sq e).centroid).scale = _
    unfold scaleAtClientPoint
    exact hclamp
  · rw [hred]
    show clientPointToViewPoint (scaleAtClientPoint cd.view cd.props.zoomMin
      cd.props.zoomMax
      (p.scaleStart * ((getTouchMetrics sq e).distance / p.start.distance)
        - cd.view.scale) (getTouchMetrics sq e).centroid)
      (getTouchMetrics sq e).centroid = _
    exact scaleAtClientPoint_anchor cd.view cd.props.zoomMin cd.props.zoomMax
      _ _ (by rw [hclamp]; exact hs0)

/-- Witness for C8 at the concrete pinch of the claim: baseline touches
(0,0) and (10,0) (distance 10), move to (0,0) and (30,0) (distance 30):
the machine enters `TouchScale` and the scale becomes 1 * (30/10) = 3,
with the document point under the centroid unchanged. -/
theorem C8_scaleOrPan_distance_slop_enters_touchScale_witness :
    (ScaleOrPanState.handleDrawMove sqDict spPW pinchMoveE baseCtx).1
        = GestureState.touchScale spPW
    ∧ (ScaleOrPanState.handleDrawMove sqDict spPW pinchMoveE
        baseCtx).2.view.scale = 3
    ∧ clientPointToViewPoint
        (ScaleOrPanState.handleDrawMove sqDict spPW pinchMoveE
          baseCtx).2.view
        (getTouchMetrics sqDict pinchMoveE).centroid
      = clientPointToViewPoint baseCtx.view
        (getTouchMetrics sqDict pinchMoveE).centroid := by
  have hm : getTouchMetrics sqDict pinchMoveE
      = { t1 := { clientX := 0, clientY := 0 },
          t2 := { clientX := 30, clientY := 0 },
          distance := 30,
          centroid := { clientX := 15, clientY := 0 } } := by
    norm_num [getTouchMetrics, sqDict, pinchMoveE]
  have h := C8_scaleOrPan_distance_slop_enters_touchScale sqDict spPW
    pinchMoveE baseCtx
    (by norm_num [pinchMoveE])
    (by rw [hm]; norm_num [spPW])
    (by rw [hm]; norm_num [spPW, baseCtx])
    (by rw [hm]; norm_num [spPW, baseCtx])
    (by rw [hm]; norm_num [spPW])
  refine ⟨h.1, ?_, h.2.2⟩
  rw [h.2.1, hm]
  norm_num [spPW]

/-- A zero-movement mouse click with the Pencil tool and pan-and-zoom
disabled commits one line: after draw-start at (5,5) immediately
followed by draw-end at (5,5) on a context with no committed lines, the
committed line list has length 1, not 0. -/
theorem C9_zero_movement_click_commits_a_line_cex :
    ((handleDrawEnd sqDict
        (handleDrawStart sqDict GestureState.default (mouseEvt 5 5 0)
          (pencilCtx []) false).1
        (mouseEvt 5 5 0)
        (handleDrawStart sqDict GestureState.default (mouseEvt 5 5 0)
          (pencilCtx []) false).2).2.lines.length = 1) := by
  rfl

/-- C9 (amended).  With the machine enabled and pan-and-zoom disabled, a
mouse (no-touch) draw-start from the default state does bypass
`WaitForPinch`, transitioning directly to `Drawing`; but with the Pencil
tool the zero-movement gesture does not record fewer than 2 points: the
start appends the brush point twice and the end a third time, so
`saveLine` commits the stroke - exactly one line, carrying 3 points, is
appended to the committed lines, for every cursor position, event time
and prior line list. -/
theorem C9_zero_movement_mouse_gesture_commits_a_line (cx cy : Rat)
    (t : Int) (L : List Stroke) :
    ∃ cd1 : Ctx,
      handleDrawStart sqDict GestureState.default (mouseEvt cx cy t)
          (pencilCtx L) false
        = (GestureState.drawing { isDrawing := true }, cd1)
      ∧ cd1.points.length = 2
      ∧ (handleDrawEnd sqDict (GestureState.drawing { isDrawing := true })
          (mouseEvt cx cy t) cd1).1 = GestureState.default
      ∧ ∃ st : Stroke,
          (handleDrawEnd sqDict (GestureState.drawing { isDrawing := true })
            (mouseEvt cx cy t) cd1).2.lines = L ++ [st]
          ∧ st.points.length = 3
          ∧ (handleDrawEnd sqDict (GestureState.drawing { isDrawing := true })
              (mouseEvt cx cy t) cd1).2.points = [] := by
  refine ⟨_, rfl, rfl, rfl, _, rfl, rfl, rfl⟩
